import Mathlib

/-!
Verification of the Client Chat Platform worker (worker/src/index.ts).

The TypeScript worker is shallowly embedded: JS strings are lists of
characters, JS values appearing in request bodies are an inductive
`JSValue` (numbers modelled as integers; fractional literals are out of
scope), the key-value store reads/writes and the inference call are
modelled as explicit state passed through a pure `handleChat` function.
Platform built-ins used by the worker (`String.prototype.trim`,
`Array.prototype.includes`, the WHATWG `URL` constructor, `JSON.parse`)
are modelled by executable Lean functions restricted to the features the
worker relies on.
-/

namespace ChatPlatform

/-- JS strings, modelled as lists of characters. -/
abbrev JStr := List Char

/-- Whitespace recognized by the model of `String.prototype.trim`. -/
def isWsChar (c : Char) : Bool :=
  c == ' ' || c == '\t' || c == '\n' || c == '\r'

/-- Model of `String.prototype.trim`: strip whitespace from both ends. -/
def jsTrim (s : JStr) : JStr :=
  ((s.dropWhile isWsChar).reverse.dropWhile isWsChar).reverse

/-- Model of `String.prototype.toLowerCase` (ASCII). -/
def jsToLower (s : JStr) : JStr := s.map Char.toLower

/-- Model of `String.prototype.includes`. -/
def jsIncludes : JStr → JStr → Bool
  | [], pat => pat.isEmpty
  | c :: t, pat => pat.isPrefixOf (c :: t) || jsIncludes t pat

/-- A string with no whitespace at either end (trim is the identity on it). -/
def noEdgeWs (l : JStr) : Prop :=
  (∀ c, l.head? = some c → isWsChar c = false) ∧
  (∀ c, l.getLast? = some c → isWsChar c = false)

theorem dropWhile_eq_self_of_head {p : Char → Bool} {l : JStr}
    (h : ∀ c, l.head? = some c → p c = false) : l.dropWhile p = l := by
  cases l with
  | nil => rfl
  | cons a as =>
    have := h a rfl
    simp [List.dropWhile, this]

theorem head?_dropWhile_not {p : Char → Bool} {l : JStr} {c : Char}
    (h : (l.dropWhile p).head? = some c) : p c = false := by
  induction l with
  | nil => simp [List.dropWhile] at h
  | cons x xs ih =>
    by_cases hx : p x
    · exact ih (by simpa [List.dropWhile, hx] using h)
    · rw [List.dropWhile_cons_of_neg hx] at h
      simp at h
      subst h
      simpa using hx

theorem getLast?_of_suffix {l : JStr} {p : Char → Bool} {c : Char}
    (h : (l.dropWhile p).getLast? = some c) : l.getLast? = some c := by
  induction l with
  | nil => simp [List.dropWhile] at h
  | cons x xs ih =>
    by_cases hx : p x
    · have h2 := ih (by simpa [List.dropWhile, hx] using h)
      cases xs with
      | nil => simp at h2
      | cons y ys => simpa [List.getLast?_cons_cons] using h2
    · simpa [List.dropWhile, hx] using h

theorem jsTrim_noEdgeWs (s : JStr) : noEdgeWs (jsTrim s) := by
  constructor
  · intro c hc
    unfold jsTrim at hc
    rw [List.head?_reverse] at hc
    have h2 := getLast?_of_suffix hc
    rw [List.getLast?_reverse] at h2
    exact head?_dropWhile_not h2
  · intro c hc
    unfold jsTrim at hc
    rw [List.getLast?_reverse] at hc
    exact head?_dropWhile_not hc

theorem jsTrim_eq_self {l : JStr} (h : noEdgeWs l) : jsTrim l = l := by
  obtain ⟨h1, h2⟩ := h
  unfold jsTrim
  rw [dropWhile_eq_self_of_head h1]
  rw [dropWhile_eq_self_of_head (by
    intro c hc
    rw [List.head?_reverse] at hc
    exact h2 c hc)]
  exact List.reverse_reverse l

/-! ### Model of the WHATWG URL constructor

The worker uses `new URL(s)` with `.origin`, `.toString()` and
`.protocol`. The model parses `scheme://authority/path`; the authority
must be nonempty and whitespace-free, mirroring the constructor's
rejection of invalid hosts. Case normalization and percent-encoding are
not modelled. -/

structure URLRec where
  scheme : JStr
  authority : JStr
  path : JStr
deriving DecidableEq, Repr

def parseURL (s : JStr) : Option URLRec :=
  let t := jsTrim s
  let scheme := t.takeWhile (fun c => !(c == ':'))
  if scheme.length = 0 ∨ scheme.length = t.length then none
  else if (t.drop (scheme.length + 1)).take 2 ≠ ['/', '/'] then none
  else
    let r2 := t.drop (scheme.length + 3)
    let auth := r2.takeWhile (fun c => !(c == '/'))
    if auth.isEmpty || auth.any isWsChar then none
    else
      let p := r2.drop auth.length
      some ⟨scheme, auth, if p.isEmpty then ['/'] else p⟩

def urlOrigin (u : URLRec) : JStr :=
  u.scheme ++ ':' :: '/' :: '/' :: u.authority

def urlToString (u : URLRec) : JStr :=
  urlOrigin u ++ u.path

def urlProtocol (u : URLRec) : JStr := u.scheme ++ [':']

/-- Shape of every record produced by `parseURL`: this is what makes the
serializations `urlToString`/`urlOrigin` reparse to the same record. -/
def wfURL (u : URLRec) : Prop :=
  u.scheme ≠ [] ∧ (∀ c ∈ u.scheme, c ≠ ':') ∧
  (∀ c, u.scheme.head? = some c → isWsChar c = false) ∧
  u.authority ≠ [] ∧ (∀ c ∈ u.authority, c ≠ '/') ∧
  (∀ c ∈ u.authority, isWsChar c = false) ∧
  u.path ≠ [] ∧ u.path.head? = some '/' ∧
  (∀ c, u.path.getLast? = some c → isWsChar c = false)

theorem takeWhile_eq_self_of_all {p : Char → Bool} {l : JStr}
    (h : ∀ c ∈ l, p c) : l.takeWhile p = l := by
  induction l with
  | nil => rfl
  | cons a as ih =>
    rw [List.takeWhile_cons_of_pos (h a (by simp))]
    rw [ih (fun c hc => h c (by simp [hc]))]

theorem drop_length_takeWhile (p : Char → Bool) (l : JStr) :
    l.drop (l.takeWhile p).length = l.dropWhile p := by
  induction l with
  | nil => rfl
  | cons a as ih =>
    by_cases hpa : p a
    · simp [List.takeWhile_cons_of_pos hpa, List.dropWhile_cons_of_pos hpa, ih]
    · simp [List.takeWhile_cons_of_neg hpa, List.dropWhile_cons_of_neg hpa]

theorem suffix_getLast? {l d : JStr} (h : d <:+ l) (hne : d ≠ []) :
    l.getLast? = d.getLast? := by
  obtain ⟨pre, rfl⟩ := h
  exact List.getLast?_append_of_ne_nil pre hne

theorem parseURL_wf {s : JStr} {u : URLRec} (h : parseURL s = some u) : wfURL u := by
  unfold parseURL at h
  set t := jsTrim s with ht
  set scheme := t.takeWhile (fun c => !(c == ':')) with hscheme
  by_cases h0 : scheme.length = 0 ∨ scheme.length = t.length
  · rw [if_pos h0] at h; exact absurd h (by simp)
  rw [if_neg h0] at h
  by_cases h2 : (t.drop (scheme.length + 1)).take 2 ≠ ['/', '/']
  · rw [if_pos h2] at h; exact absurd h (by simp)
  rw [if_neg h2] at h
  set r2 := t.drop (scheme.length + 3) with hr2
  set auth := r2.takeWhile (fun c => !(c == '/')) with hauth
  by_cases hbad : auth.isEmpty || auth.any isWsChar
  · simp only [hbad, if_true] at h; exact absurd h (by simp)
  simp only [hbad, Bool.false_eq_true, if_false] at h
  set p := r2.drop auth.length with hp
  obtain rfl : u = ⟨scheme, auth, if p.isEmpty then ['/'] else p⟩ := by
    injection h with hinj; exact hinj.symm
  push_neg at h0
  simp only [Bool.or_eq_true, not_or, Bool.not_eq_true] at hbad
  have hts : noEdgeWs t := jsTrim_noEdgeWs s
  have hr2suf : r2 <:+ t := hr2 ▸ List.drop_suffix _ _
  unfold wfURL
  dsimp only
  refine ⟨?_, ?_, ?_, ?_, ?_, ?_, ?_, ?_, ?_⟩
  · intro hemp; exact h0.1 (by simp [hemp])
  · intro c hc
    have := List.mem_takeWhile_imp (hscheme ▸ hc)
    simpa using this
  · intro c hc
    have hh : t.head? = some c := by
      have hht := List.head?_takeWhile (fun c => !(c == ':')) t
      rw [← hscheme] at hht
      rw [hht] at hc
      rcases hth : t.head? with _ | a <;> rw [hth] at hc
      · simp at hc
      · simp only [Option.filter_some] at hc
        split at hc
        · exact hc
        · simp at hc
    exact hts.1 c hh
  · intro hemp
    rw [hemp] at hbad
    simp at hbad
  · intro c hc
    have := List.mem_takeWhile_imp (hauth ▸ hc)
    simpa using this
  · intro c hc
    obtain ⟨_, hb2⟩ := hbad
    by_contra hws
    have : auth.any isWsChar = true := by
      rw [List.any_eq_true]
      exact ⟨c, hc, by simpa using hws⟩
    rw [this] at hb2; exact absurd hb2 (by simp)
  · split
    · simp
    · rename_i hq
      simpa [List.isEmpty_iff] using hq
  · split
    · rfl
    · rename_i hpe
      have hpd : p = r2.dropWhile (fun c => !(c == '/')) := by
        rw [hp, hauth]
        exact drop_length_takeWhile ..
      rcases hpl : p with _ | ⟨a, p1⟩
      · rw [hpl] at hpe; simp at hpe
      · have ha := head?_dropWhile_not (p := fun c => !(c == '/')) (l := r2) (c := a)
          (by rw [← hpd, hpl]; rfl)
        simp at ha
        simp [hpl, ha]
  · intro c hc
    split at hc
    · simp at hc
      subst hc; decide
    · rename_i hpe
      have hppre : p <:+ r2 := hp ▸ List.drop_suffix _ _
      have h1 : r2.getLast? = p.getLast? :=
        suffix_getLast? hppre (by simpa [List.isEmpty_iff] using hpe)
      have h2 : t.getLast? = r2.getLast? :=
        suffix_getLast? hr2suf (by
          intro he
          rw [he] at hp
          simp [hp] at hpe)
      exact hts.2 c (by rw [h2, h1]; exact hc)

theorem head?_append_left {l r : JStr} (h : l ≠ []) : (l ++ r).head? = l.head? := by
  cases l with
  | nil => exact absurd rfl h
  | cons a as => rfl

theorem urlToString_flat (u : URLRec) :
    urlToString u = (u.scheme ++ ':' :: '/' :: '/' :: u.authority) ++ u.path := rfl

theorem noEdgeWs_urlToString {u : URLRec} (h : wfURL u) : noEdgeWs (urlToString u) := by
  obtain ⟨hs1, _, hs3, ha1, _, _, hp1, _, hp3⟩ := h
  constructor
  · intro c hc
    rw [urlToString_flat, List.append_assoc, head?_append_left hs1] at hc
    exact hs3 c hc
  · intro c hc
    rw [urlToString_flat, List.getLast?_append_of_ne_nil _ hp1] at hc
    exact hp3 c hc

theorem noEdgeWs_urlOrigin {u : URLRec} (h : wfURL u) : noEdgeWs (urlOrigin u) := by
  obtain ⟨hs1, _, hs3, ha1, _, ha3, _, _, _⟩ := h
  constructor
  · intro c hc
    rw [urlOrigin, head?_append_left hs1] at hc
    exact hs3 c hc
  · intro c hc
    rw [show urlOrigin u = (u.scheme ++ [':', '/', '/']) ++ u.authority by
      simp [urlOrigin], List.getLast?_append_of_ne_nil _ ha1] at hc
    exact ha3 c (List.mem_of_mem_getLast? (Option.mem_def.mpr hc))

theorem takeWhile_scheme {u : URLRec} (h : wfURL u) (rest : JStr) :
    (u.scheme ++ ':' :: rest).takeWhile (fun c => !(c == ':')) = u.scheme := by
  rw [List.takeWhile_append_of_pos (by
    intro a ha
    simpa using h.2.1 a ha)]
  simp

theorem takeWhile_auth {u : URLRec} (h : wfURL u) (rest : JStr) :
    (u.authority ++ rest).takeWhile (fun c => !(c == '/')) =
      u.authority ++ rest.takeWhile (fun c => !(c == '/')) := by
  rw [List.takeWhile_append_of_pos (by
    intro a ha
    simpa using h.2.2.2.2.1 a ha)]

theorem parseURL_toString {u : URLRec} (h : wfURL u) :
    parseURL (urlToString u) = some u := by
  obtain ⟨S, A, P⟩ := u
  obtain ⟨hs1, hs2, hs3, ha1, ha2, ha3, hp1, hp2, hp3⟩ := h
  dsimp only at hs1 hs2 hs3 ha1 ha2 ha3 hp1 hp2 hp3
  obtain ⟨p1, rfl⟩ : ∃ p1, P = '/' :: p1 := by
    cases hpl : P with
    | nil => exact absurd hpl hp1
    | cons a as =>
      rw [hpl] at hp2
      simp at hp2
      exact ⟨as, by rw [hp2]⟩
  have hwf : wfURL ⟨S, A, '/' :: p1⟩ := ⟨hs1, hs2, hs3, ha1, ha2, ha3, hp1, hp2, hp3⟩
  unfold parseURL
  rw [jsTrim_eq_self (noEdgeWs_urlToString hwf)]
  rw [urlToString_flat]
  dsimp only
  simp only [List.append_assoc, List.cons_append]
  rw [takeWhile_scheme hwf]
  rw [if_neg (by
    push_neg
    constructor
    · simpa [List.length_eq_zero] using hs1
    · simp [List.length_append])]
  have hd1 : (S ++ ':' :: '/' :: '/' :: (A ++ '/' :: p1)).drop
      (S.length + 1) = '/' :: '/' :: (A ++ '/' :: p1) := by
    rw [show S ++ ':' :: '/' :: '/' :: (A ++ '/' :: p1) =
      (S ++ [':']) ++ ('/' :: '/' :: (A ++ '/' :: p1)) by simp]
    exact List.drop_left' (by simp)
  have hd3 : (S ++ ':' :: '/' :: '/' :: (A ++ '/' :: p1)).drop
      (S.length + 3) = A ++ '/' :: p1 := by
    rw [show S ++ ':' :: '/' :: '/' :: (A ++ '/' :: p1) =
      (S ++ [':', '/', '/']) ++ (A ++ '/' :: p1) by simp]
    exact List.drop_left' (by simp)
  rw [hd1, hd3]
  rw [if_neg (by simp)]
  rw [takeWhile_auth hwf]
  have htw : List.takeWhile (fun c => !(c == '/')) ('/' :: p1) = [] :=
    List.takeWhile_cons_of_neg (by simp)
  simp only [htw, List.append_nil]
  rw [if_neg (by
    simp only [Bool.or_eq_true, not_or]
    constructor
    · simpa [List.isEmpty_iff] using ha1
    · simp only [List.any_eq_true, not_exists, not_and]
      intro c hc
      simp [ha3 c hc])]
  rw [List.drop_left]
  simp

theorem parseURL_origin {u : URLRec} (h : wfURL u) :
    parseURL (urlOrigin u) = some ⟨u.scheme, u.authority, ['/']⟩ := by
  obtain ⟨S, A, P⟩ := u
  obtain ⟨hs1, hs2, hs3, ha1, ha2, ha3, hp1, hp2, hp3⟩ := h
  dsimp only at hs1 hs2 hs3 ha1 ha2 ha3 hp1 hp2 hp3 ⊢
  have hwf : wfURL ⟨S, A, P⟩ := ⟨hs1, hs2, hs3, ha1, ha2, ha3, hp1, hp2, hp3⟩
  unfold parseURL
  rw [jsTrim_eq_self (noEdgeWs_urlOrigin hwf)]
  unfold urlOrigin
  dsimp only
  rw [takeWhile_scheme hwf]
  rw [if_neg (by
    push_neg
    constructor
    · simpa [List.length_eq_zero] using hs1
    · simp [List.length_append])]
  have hd1 : (S ++ ':' :: '/' :: '/' :: A).drop (S.length + 1) = '/' :: '/' :: A := by
    rw [show S ++ ':' :: '/' :: '/' :: A = (S ++ [':']) ++ ('/' :: '/' :: A) by simp]
    exact List.drop_left' (by simp)
  have hd3 : (S ++ ':' :: '/' :: '/' :: A).drop (S.length + 3) = A := by
    rw [show S ++ ':' :: '/' :: '/' :: A = (S ++ [':', '/', '/']) ++ A by simp]
    exact List.drop_left' (by simp)
  rw [hd1, hd3]
  rw [if_neg (by simp)]
  rw [takeWhile_eq_self_of_all (by
    intro c hc
    simpa using ha2 c hc)]
  rw [if_neg (by
    simp only [Bool.or_eq_true, not_or]
    constructor
    · simpa [List.isEmpty_iff] using ha1
    · simp only [List.any_eq_true, not_exists, not_and]
      intro c hc
      simp [ha3 c hc])]
  simp

/-! ### JS values

Request bodies and stored JSON are dynamically typed; `JSValue` models
them. JS numbers are modelled as integers (fractional literals are out
of the model's scope). -/

inductive JSValue where
  | vUndef
  | vNull
  | vBool (b : Bool)
  | vNum (n : Int)
  | vStr (s : JStr)
  | vArr (elems : List JSValue)
  | vObj (fields : List (JStr × JSValue))

/-- Model of `v?.k`: property access with optional chaining. -/
def jsGet (v : JSValue) (k : JStr) : JSValue :=
  match v with
  | .vObj fields =>
    match fields.find? (fun f => f.1 == k) with
    | some f => f.2
    | none => .vUndef
  | _ => (.vUndef)

/-- JS truthiness. -/
def jsTruthy (v : JSValue) : Bool :=
  match v with
  | .vUndef => false
  | .vNull => false
  | .vBool b => b
  | .vNum n => !(n == 0)
  | .vStr s => !s.isEmpty
  | .vArr _ => true
  | .vObj _ => true

/-- Model of `a ?? b` (nullish coalescing). -/
def jsCoalesce (a b : JSValue) : JSValue :=
  match a with
  | .vUndef => b
  | .vNull => b
  | _ => a

/-- Values for which `typeof v === "object"` holds. -/
def jsIsObjectType (v : JSValue) : Bool :=
  match v with
  | .vNull => true
  | .vArr _ => true
  | .vObj _ => true
  | _ => false

/-- Model of `typeof v === "string" ? some v : none`. -/
def asString? (v : JSValue) : Option JStr :=
  match v with
  | .vStr s => some s
  | _ => Option.none

/-- Model of `Number(string)` restricted to integer literals: the empty
or all-whitespace string is 0, an optional sign followed by digits is
that integer, anything else is NaN (`none`). -/
def jsNumberOfString (s : JStr) : Option Int :=
  let t := jsTrim s
  match t with
  | [] => some 0
  | '-' :: ds =>
    if ds ≠ [] ∧ ds.all Char.isDigit then
      some (-(Int.ofNat (ds.foldl (fun acc c => acc * 10 + (c.toNat - '0'.toNat)) 0)))
    else Option.none
  | '+' :: ds =>
    if ds ≠ [] ∧ ds.all Char.isDigit then
      some (Int.ofNat (ds.foldl (fun acc c => acc * 10 + (c.toNat - '0'.toNat)) 0))
    else Option.none
  | ds =>
    if ds.all Char.isDigit then
      some (Int.ofNat (ds.foldl (fun acc c => acc * 10 + (c.toNat - '0'.toNat)) 0))
    else Option.none

/-- Embedding of `clampInt(n, def, min, max)` from worker/src/index.ts:
coerce to a number (strings via `Number`), fall back to `def` when not
finite, then clamp into `[min, max]`. -/
def clampInt (n : JSValue) (defv lo hi : Int) : Int :=
  match n with
  | .vNum x => max lo (min hi x)
  | .vStr s =>
    match jsNumberOfString s with
    | some x => max lo (min hi x)
    | Option.none => defv
  | _ => defv

/-- Clamp used where the worker re-applies `clampInt` to an
already-numeric stored field (always finite in the model). -/
def clampNum (x lo hi : Int) : Int := max lo (min hi x)

/-! ### Bot configuration model (normalized records) -/

inductive LeadMode where
  | soft | balanced | direct
deriving DecidableEq, Repr

inductive RagMode where
  | simple | embed
deriving DecidableEq, Repr

inductive ActionType where
  | open_contact | create_lead | webhook | none
deriving DecidableEq, Repr

def actionTypeToStr (t : ActionType) : JStr :=
  match t with
  | .open_contact => ("open_contact").toList
  | .create_lead => ("create_lead").toList
  | .webhook => ("webhook").toList
  | .none => ("none").toList

def strToActionType (s : JStr) : Option ActionType :=
  if s = ("open_contact").toList then some .open_contact
  else if s = ("create_lead").toList then some .create_lead
  else if s = ("webhook").toList then some .webhook
  else if s = ("none").toList then some .none
  else Option.none

structure RateLimitConfig where
  limit : Int
  windowSeconds : Int
deriving DecidableEq, Repr

structure DailyBudgetConfig where
  maxRequestsPerDay : Int
  maxTokensPerDay : Int
deriving DecidableEq, Repr

structure BotActionConfig where
  actionsEnabled : Bool
  webhookUrl : Option JStr
  webhookAuthHeader : Option JStr
  webhookSecret : Option JStr
  allowedActionTypes : Option (List ActionType)
deriving DecidableEq, Repr

structure BotConfig where
  botId : JStr
  siteName : Option JStr
  contactUrl : Option JStr
  tone : Option JStr
  model : Option JStr
  maxTokens : Int
  allowedOrigins : List JStr
  botKey : Option JStr
  leadMode : LeadMode
  qualifyingQuestions : Option (List JStr)
  knowledge : Option JStr
  knowledgeUrls : List JStr
  ragEnabled : Bool
  ragMode : Option RagMode
  ragMaxUrlsPerRequest : Int
  ragTopKChunks : Int
  ragChunkChars : Int
  ragCacheTtlSeconds : Int
  ragEmbeddingModel : Option JStr
  maxTurns : Int
  maxCharsPerMessage : Int
  rateLimit : RateLimitConfig
  dailyBudget : Option DailyBudgetConfig
  actions : Option BotActionConfig
  schemaVersion : Int
deriving DecidableEq, Repr

/-! ### Hard global caps (worker/src/index.ts lines 30-47) -/

def GLOBAL_MAX_TOKENS : Int := 1024
def GLOBAL_MAX_TURNS : Int := 30
def GLOBAL_MAX_CHARS_PER_MESSAGE : Int := 8000
def GLOBAL_MAX_SYSTEM_CHARS : Nat := 30000
def GLOBAL_MAX_TOTAL_INPUT_CHARS : Nat := 75000
def GLOBAL_RAG_MAX_URLS : Int := 5
def GLOBAL_RAG_MAX_TOPK : Int := 8
def GLOBAL_RAG_MAX_CHUNK_CHARS : Int := 2000

/-! ### sanitizeUrlList / sanitizeOrigins -/

/-- One loop step of `sanitizeUrlList`: a candidate is kept when it is a
nonempty-after-trim string parsing as an http(s) URL; the kept value is
the parsed URL's serialization. -/
def validUrl (v : JSValue) : Option JStr :=
  match v with
  | .vStr s =>
    let t := jsTrim s
    if t.isEmpty then Option.none
    else
      match parseURL t with
      | some u =>
        if urlProtocol u = ("http:").toList ∨ urlProtocol u = ("https:").toList then
          some (urlToString u)
        else Option.none
      | Option.none => Option.none
  | _ => Option.none

/-- One loop step of `sanitizeOrigins`: any parseable URL is reduced to
its origin. -/
def validOrigin (v : JSValue) : Option JStr :=
  match v with
  | .vStr s =>
    let t := jsTrim s
    if t.isEmpty then Option.none
    else (parseURL t).map urlOrigin
  | _ => Option.none

/-- The collection loop shared by both sanitizers: push each kept value
and break once the output reaches `budget` entries (the source checks
`out.length >= max` after the push). -/
def collectValid (f : JSValue → Option JStr) : List JSValue → Nat → List JStr
  | [], _ => []
  | v :: rest, budget =>
    match f v with
    | some s => if budget ≤ 1 then [s] else s :: collectValid f rest (budget - 1)
    | Option.none => collectValid f rest budget

/-- Worker of `dedupFirst` with explicit fuel (always called with fuel
at least the list length). -/
def dedupFirstGo : Nat → List JStr → List JStr
  | _, [] => []
  | 0, _ :: _ => []
  | Nat.succ k, a :: rest => a :: dedupFirstGo k (rest.filter (fun x => x != a))

/-- Model of `Array.from(new Set(out))`: deduplicate keeping first
occurrences in insertion order. -/
def dedupFirst (l : List JStr) : List JStr := dedupFirstGo l.length l

def sanitizeUrlList (urls : JSValue) (max : Nat) : List JStr :=
  match urls with
  | .vArr xs => collectValid validUrl xs max
  | _ => []

def sanitizeOrigins (origins : JSValue) (max : Nat) : List JStr :=
  match origins with
  | .vArr xs => dedupFirst (collectValid validOrigin xs max)
  | _ => []

/-! ### JSON views of stored (typed) config pieces

The worker mixes the raw request body with the stored record
(`incoming?.field ?? existing?.field`); the stored record is itself
plain JSON, so these functions give the JSON view of the typed model. -/

def strListToJS (l : List JStr) : JSValue := .vArr (l.map .vStr)

def optStrListToJS : Option (List JStr) → JSValue
  | Option.none => .vUndef
  | some l => strListToJS l

def optStrToJS : Option JStr → JSValue
  | Option.none => .vUndef
  | some s => .vStr s

def atListToJS : Option (List ActionType) → JSValue
  | Option.none => .vUndef
  | some ts => .vArr (ts.map (fun t => .vStr (actionTypeToStr t)))

def botActionToJS (a : BotActionConfig) : JSValue :=
  .vObj [(("actionsEnabled").toList, .vBool a.actionsEnabled),
         (("webhookUrl").toList, optStrToJS a.webhookUrl),
         (("webhookAuthHeader").toList, optStrToJS a.webhookAuthHeader),
         (("webhookSecret").toList, optStrToJS a.webhookSecret),
         (("allowedActionTypes").toList, atListToJS a.allowedActionTypes)]

def optActionToJS : Option BotActionConfig → JSValue
  | Option.none => .vUndef
  | some a => botActionToJS a

/-! ### normalizeConfig and friends (worker/src/index.ts lines 283-391) -/

/-- Trimmed string coercion used on the webhook fields: a non-string
value becomes the empty string. -/
def trimmedStrField (v : JSValue) : JStr :=
  match asString? v with
  | some s => jsTrim s
  | Option.none => []

/-- The `new URL(webhookUrl).toString()` step with its `try`/`catch`:
empty input or a parse failure yields the empty string. -/
def parsedWebhookOf (s : JStr) : JStr :=
  if s.isEmpty then []
  else
    match parseURL s with
    | some u => urlToString u
    | Option.none => []

/-- Model of `s || undefined`. -/
def optOfNonempty (s : JStr) : Option JStr :=
  if s.isEmpty then Option.none else some s

/-- The `allowedActionTypes` filter: keep only the four known kinds. -/
def pickAllowedTypes (v : JSValue) : Option (List ActionType) :=
  match v with
  | .vArr xs =>
    some (xs.filterMap (fun t =>
      match t with
      | .vStr s => strToActionType s
      | _ => Option.none))
  | _ => Option.none

/-- Embedding of `normalizeActionConfig(v)`. -/
def normalizeActionConfig (v : JSValue) : Option BotActionConfig :=
  if ¬ jsTruthy v ∨ ¬ jsIsObjectType v then Option.none
  else
    some
      { actionsEnabled := jsTruthy (jsGet v (("actionsEnabled").toList)),
        webhookUrl := optOfNonempty
          (parsedWebhookOf (trimmedStrField (jsGet v (("webhookUrl").toList)))),
        webhookAuthHeader := optOfNonempty
          (trimmedStrField (jsGet v (("webhookAuthHeader").toList))),
        webhookSecret := optOfNonempty
          (trimmedStrField (jsGet v (("webhookSecret").toList))),
        allowedActionTypes :=
          match pickAllowedTypes (jsGet v (("allowedActionTypes").toList)) with
          | some l => if l.isEmpty then Option.none else some l
          | Option.none => Option.none }

/-- Embedding of `normalizeDailyBudget(v, existing)`. -/
def normalizeDailyBudget (v : JSValue) (ex : Option DailyBudgetConfig) :
    Option DailyBudgetConfig :=
  if ¬ jsTruthy v ∧ ex = Option.none then Option.none
  else
    some
      { maxRequestsPerDay :=
          clampInt (jsGet v (("maxRequestsPerDay").toList))
            ((ex.map (fun b => b.maxRequestsPerDay)).getD 300) 0 100000,
        maxTokensPerDay :=
          clampInt (jsGet v (("maxTokensPerDay").toList))
            ((ex.map (fun b => b.maxTokensPerDay)).getD 0) 0 50000000 }

/-- Optional string field: `typeof incoming?.f === "string" ?
incoming.f.trim() : existing?.f`. -/
def strFieldTrim (v : JSValue) (ex : Option JStr) : Option JStr :=
  match asString? v with
  | some s => some (jsTrim s)
  | Option.none => ex

/-- Untrimmed string field (used for `knowledge`). -/
def strFieldRaw (v : JSValue) (ex : Option JStr) : Option JStr :=
  match asString? v with
  | some s => some s
  | Option.none => ex

/-- The `leadMode` selector: accept one of the three literals, else
default from existing then to `balanced`. -/
def pickLeadMode (v : JSValue) (ex : Option LeadMode) : LeadMode :=
  match v with
  | .vStr s =>
    if s = ("soft").toList then .soft
    else if s = ("balanced").toList then .balanced
    else if s = ("direct").toList then .direct
    else ex.getD .balanced
  | _ => ex.getD .balanced

/-- The `qualifyingQuestions` selector: keep strings, trim, drop
empties, cap at 6; non-arrays fall back to the existing list. -/
def pickQualifying (v : JSValue) (ex : Option (List JStr)) : Option (List JStr) :=
  match v with
  | .vArr xs =>
    some ((((xs.filterMap asString?).map jsTrim).filter (fun s => !s.isEmpty)).take 6)
  | _ => ex

def pickRagEnabled (v : JSValue) (ex : Option Bool) : Bool :=
  match v with
  | .vBool b => b
  | _ => ex.getD false

def pickRagMode (v : JSValue) (ex : Option RagMode) : Option RagMode :=
  match v with
  | .vStr s =>
    if s = ("simple").toList then some .simple
    else if s = ("embed").toList then some .embed
    else ex
  | _ => ex

/-- The two trailing assignments of `normalizeConfig`
(`if (!cfg.contactUrl) ...`, `if (!cfg.siteName) ...`): replace a
missing or empty optional string by a fallback. -/
def postFalsy (x : Option JStr) (fallback : JStr) : Option JStr :=
  match x with
  | some n => if n.isEmpty then some fallback else some n
  | Option.none => some fallback

/-- Embedding of `normalizeConfig(incoming, existing)`; `none` models
the `throw new Error("Missing botId")` path. -/
def incomingBotId (incoming : JSValue) : JStr :=
  match asString? (jsGet incoming (("botId").toList)) with
  | some s => jsTrim s
  | Option.none => []

def normalizeConfig (incoming : JSValue) (existing : Option BotConfig) :
    Option BotConfig :=
  let botId : JStr := incomingBotId incoming
  if botId.isEmpty then Option.none
  else
    some
      { botId := botId,
        schemaVersion := 2,
        siteName := postFalsy (strFieldTrim (jsGet incoming (("siteName").toList))
          (existing.bind (fun e => e.siteName))) botId,
        contactUrl := postFalsy (strFieldTrim (jsGet incoming (("contactUrl").toList))
          (existing.bind (fun e => e.contactUrl))) (("/contact").toList),
        tone := strFieldTrim (jsGet incoming (("tone").toList))
          (existing.bind (fun e => e.tone)),
        model := strFieldTrim (jsGet incoming (("model").toList))
          (existing.bind (fun e => e.model)),
        maxTokens := clampInt (jsGet incoming (("maxTokens").toList))
          ((existing.map (fun e => e.maxTokens)).getD 512) 64 GLOBAL_MAX_TOKENS,
        allowedOrigins := sanitizeOrigins
          (jsCoalesce (jsGet incoming (("allowedOrigins").toList))
            (optStrListToJS (existing.map (fun e => e.allowedOrigins)))) 25,
        botKey := strFieldTrim (jsGet incoming (("botKey").toList))
          (existing.bind (fun e => e.botKey)),
        leadMode := pickLeadMode (jsGet incoming (("leadMode").toList))
          (existing.map (fun e => e.leadMode)),
        qualifyingQuestions := pickQualifying
          (jsGet incoming (("qualifyingQuestions").toList))
          (existing.bind (fun e => e.qualifyingQuestions)),
        knowledge := strFieldRaw (jsGet incoming (("knowledge").toList))
          (existing.bind (fun e => e.knowledge)),
        knowledgeUrls := sanitizeUrlList
          (jsCoalesce (jsGet incoming (("knowledgeUrls").toList))
            (optStrListToJS (existing.map (fun e => e.knowledgeUrls)))) 50,
        ragEnabled := pickRagEnabled (jsGet incoming (("ragEnabled").toList))
          (existing.map (fun e => e.ragEnabled)),
        ragMode := pickRagMode (jsGet incoming (("ragMode").toList))
          (existing.bind (fun e => e.ragMode)),
        ragMaxUrlsPerRequest := clampInt
          (jsGet incoming (("ragMaxUrlsPerRequest").toList))
          ((existing.map (fun e => e.ragMaxUrlsPerRequest)).getD 2) 0
          GLOBAL_RAG_MAX_URLS,
        ragTopKChunks := clampInt (jsGet incoming (("ragTopKChunks").toList))
          ((existing.map (fun e => e.ragTopKChunks)).getD 4) 1 GLOBAL_RAG_MAX_TOPK,
        ragChunkChars := clampInt (jsGet incoming (("ragChunkChars").toList))
          ((existing.map (fun e => e.ragChunkChars)).getD 1200) 300
          GLOBAL_RAG_MAX_CHUNK_CHARS,
        ragCacheTtlSeconds := clampInt (jsGet incoming (("ragCacheTtlSeconds").toList))
          ((existing.map (fun e => e.ragCacheTtlSeconds)).getD 86400) 60 (7 * 86400),
        ragEmbeddingModel := strFieldTrim (jsGet incoming (("ragEmbeddingModel").toList))
          (existing.bind (fun e => e.ragEmbeddingModel)),
        maxTurns := clampInt (jsGet incoming (("maxTurns").toList))
          ((existing.map (fun e => e.maxTurns)).getD 20) 4 GLOBAL_MAX_TURNS,
        maxCharsPerMessage := clampInt (jsGet incoming (("maxCharsPerMessage").toList))
          ((existing.map (fun e => e.maxCharsPerMessage)).getD 4000) 200
          GLOBAL_MAX_CHARS_PER_MESSAGE,
        rateLimit :=
          { limit := clampInt (jsGet (jsGet incoming (("rateLimit").toList)) (("limit").toList))
              ((existing.map (fun e => e.rateLimit.limit)).getD 12) 1 120,
            windowSeconds := clampInt
              (jsGet (jsGet incoming (("rateLimit").toList)) (("windowSeconds").toList))
              ((existing.map (fun e => e.rateLimit.windowSeconds)).getD 60) 10 3600 },
        dailyBudget := normalizeDailyBudget (jsGet incoming (("dailyBudget").toList))
          (existing.bind (fun e => e.dailyBudget)),
        actions := normalizeActionConfig
          (jsCoalesce (jsGet incoming (("actions").toList))
            (optActionToJS (existing.bind (fun e => e.actions)))) }

/-! ### Idempotence lemmas for the upsert normalization -/

theorem clampInt_idem (v : JSValue) (d lo hi : Int) :
    clampInt v (clampInt v d lo hi) lo hi = clampInt v d lo hi := by
  cases v with
  | vStr s =>
    cases hn : jsNumberOfString s with
    | some x => simp [clampInt, hn]
    | none => simp [clampInt, hn]
  | _ => rfl

theorem strFieldTrim_idem (v : JSValue) (ex : Option JStr) :
    strFieldTrim v (strFieldTrim v ex) = strFieldTrim v ex := by
  unfold strFieldTrim
  split <;> rfl

theorem strFieldRaw_idem (v : JSValue) (ex : Option JStr) :
    strFieldRaw v (strFieldRaw v ex) = strFieldRaw v ex := by
  unfold strFieldRaw
  split <;> rfl

theorem postFalsy_trim_idem (v : JSValue) (ex : Option JStr) (fb : JStr)
    (hfb : fb.isEmpty = false) :
    postFalsy (strFieldTrim v (postFalsy (strFieldTrim v ex) fb)) fb =
      postFalsy (strFieldTrim v ex) fb := by
  unfold strFieldTrim
  cases hv : asString? v with
  | some s => rfl
  | none =>
    unfold postFalsy
    cases ex with
    | none => simp [hfb]
    | some n =>
      by_cases hn : n.isEmpty <;> simp [hn, hfb]

theorem pickLeadMode_idem (v : JSValue) (ex : Option LeadMode) :
    pickLeadMode v (some (pickLeadMode v ex)) = pickLeadMode v ex := by
  unfold pickLeadMode
  cases v <;> simp
  split_ifs <;> simp

theorem pickQualifying_idem (v : JSValue) (ex : Option (List JStr)) :
    pickQualifying v (pickQualifying v ex) = pickQualifying v ex := by
  unfold pickQualifying
  cases v <;> rfl

theorem pickRagEnabled_idem (v : JSValue) (ex : Option Bool) :
    pickRagEnabled v (some (pickRagEnabled v ex)) = pickRagEnabled v ex := by
  unfold pickRagEnabled
  cases v <;> simp

theorem pickRagMode_idem (v : JSValue) (ex : Option RagMode) :
    pickRagMode v (pickRagMode v ex) = pickRagMode v ex := by
  unfold pickRagMode
  cases v <;> simp
  split_ifs <;> simp

theorem normalizeDailyBudget_idem (v : JSValue) (ex : Option DailyBudgetConfig) :
    normalizeDailyBudget v (normalizeDailyBudget v ex) = normalizeDailyBudget v ex := by
  unfold normalizeDailyBudget
  by_cases h1 : ¬ jsTruthy v ∧ ex = Option.none
  · rw [if_pos h1, if_pos (by exact ⟨h1.1, rfl⟩)]
  · rw [if_neg h1]
    rw [if_neg (by
      intro hcon
      exact absurd hcon.2 (by simp))]
    simp [clampInt_idem]

theorem collectValid_length (f : JSValue → Option JStr) :
    ∀ (xs : List JSValue) (n : Nat), 1 ≤ n → (collectValid f xs n).length ≤ n := by
  intro xs
  induction xs with
  | nil =>
    intro n _
    simp [collectValid]
  | cons v rest ih =>
    intro n hn
    cases hf : f v with
    | none => simpa [collectValid, hf] using ih n hn
    | some s =>
      by_cases hb : n ≤ 1
      · simp [collectValid, hf, hb]
        omega
      · simp only [collectValid, hf, if_neg hb, List.length_cons]
        have := ih (n - 1) (by omega)
        omega

theorem dedupFirstGo_length_le : ∀ (k : Nat) (l : List JStr),
    (dedupFirstGo k l).length ≤ l.length := by
  intro k
  induction k with
  | zero =>
    intro l
    cases l <;> simp [dedupFirstGo]
  | succ k ih =>
    intro l
    cases l with
    | nil => simp [dedupFirstGo]
    | cons a rest =>
      simp only [dedupFirstGo, List.length_cons]
      have h1 := ih (rest.filter (fun x => x != a))
      have h2 : (rest.filter (fun x => x != a)).length ≤ rest.length :=
        List.length_filter_le ..
      omega

theorem dedupFirst_length_le (l : List JStr) : (dedupFirst l).length ≤ l.length :=
  dedupFirstGo_length_le ..

theorem sanitizeOrigins_length (v : JSValue) : (sanitizeOrigins v 25).length ≤ 25 := by
  unfold sanitizeOrigins
  split
  · rename_i xs
    calc (dedupFirst (collectValid validOrigin xs 25)).length
        ≤ (collectValid validOrigin xs 25).length := dedupFirst_length_le _
      _ ≤ 25 := collectValid_length _ _ _ (by omega)
  · simp

theorem sanitizeUrlList_length (v : JSValue) : (sanitizeUrlList v 50).length ≤ 50 := by
  unfold sanitizeUrlList
  split
  · exact collectValid_length _ _ _ (by omega)
  · simp

theorem mem_collectValid {f : JSValue → Option JStr} :
    ∀ {xs : List JSValue} {n : Nat} {s : JStr},
      s ∈ collectValid f xs n → ∃ v, v ∈ xs ∧ f v = some s := by
  intro xs
  induction xs with
  | nil =>
    intro n s h
    simp [collectValid] at h
  | cons v rest ih =>
    intro n s h
    cases hf : f v with
    | none =>
      simp only [collectValid, hf] at h
      obtain ⟨w, hw1, hw2⟩ := ih h
      exact ⟨w, by simp [hw1], hw2⟩
    | some t =>
      simp only [collectValid, hf] at h
      split at h
      · simp at h
        exact ⟨v, by simp, by rw [hf, h]⟩
      · rcases List.mem_cons.mp h with h1 | h2
        · exact ⟨v, by simp, by rw [hf, h1]⟩
        · obtain ⟨w, hw1, hw2⟩ := ih h2
          exact ⟨w, by simp [hw1], hw2⟩

theorem collectValid_all_valid {f : JSValue → Option JStr} :
    ∀ (l : List JStr) (n : Nat), (∀ s ∈ l, f (.vStr s) = some s) → 1 ≤ n →
      l.length ≤ n → collectValid f (l.map .vStr) n = l := by
  intro l
  induction l with
  | nil =>
    intro n _ _ _
    simp [collectValid]
  | cons a rest ih =>
    intro n hval hn hlen
    have ha : f (.vStr a) = some a := hval a (by simp)
    simp only [List.map_cons, collectValid, ha]
    by_cases hb : n ≤ 1
    · rw [if_pos hb]
      have : rest = [] := by
        rcases rest with _ | ⟨b, rs⟩
        · rfl
        · simp at hlen
          omega
      rw [this]
    · rw [if_neg hb]
      rw [ih (n - 1) (fun s hs => hval s (by simp [hs])) (by omega)
        (by simp at hlen; omega)]

theorem mem_dedupFirstGo : ∀ (k : Nat) (l : List JStr) (s : JStr),
    s ∈ dedupFirstGo k l → s ∈ l := by
  intro k
  induction k with
  | zero =>
    intro l s h
    cases l <;> simp [dedupFirstGo] at h
  | succ k ih =>
    intro l s h
    cases l with
    | nil => simp [dedupFirstGo] at h
    | cons a rest =>
      rw [dedupFirstGo] at h
      rcases List.mem_cons.mp h with h1 | h2
      · simp [h1]
      · have := ih _ _ h2
        have := List.mem_of_mem_filter this
        simp [this]

theorem nodup_dedupFirstGo : ∀ (k : Nat) (l : List JStr), l.length ≤ k →
    (dedupFirstGo k l).Nodup := by
  intro k
  induction k with
  | zero =>
    intro l hl
    cases l with
    | nil => simp [dedupFirstGo]
    | cons a rest => simp at hl
  | succ k ih =>
    intro l hl
    cases l with
    | nil => simp [dedupFirstGo]
    | cons a rest =>
      rw [dedupFirstGo]
      refine List.Nodup.cons ?_ ?_
      · intro hmem
        have h1 := mem_dedupFirstGo _ _ _ hmem
        have h2 := List.of_mem_filter h1
        simp at h2
      · refine ih _ ?_
        have h2 : (rest.filter (fun x => x != a)).length ≤ rest.length :=
          List.length_filter_le ..
        simp at hl
        omega

theorem dedupFirstGo_eq_self : ∀ (k : Nat) (l : List JStr), l.Nodup →
    l.length ≤ k → dedupFirstGo k l = l := by
  intro k
  induction k with
  | zero =>
    intro l hnd hl
    cases l with
    | nil => rfl
    | cons a rest => simp at hl
  | succ k ih =>
    intro l hnd hl
    cases l with
    | nil => rfl
    | cons a rest =>
      rw [dedupFirstGo]
      have hfa : rest.filter (fun x => x != a) = rest := by
        refine List.filter_eq_self.mpr ?_
        intro b hb
        have : a ∉ rest := (List.nodup_cons.mp hnd).1
        simp only [bne_iff_ne, ne_eq, decide_eq_true_eq]
        intro hba
        exact this (hba ▸ hb)
      rw [hfa]
      rw [ih rest (List.nodup_cons.mp hnd).2 (by simp at hl; omega)]

theorem urlOrigin_ne_nil {u : URLRec} (h : u.scheme ≠ []) : urlOrigin u ≠ [] := by
  unfold urlOrigin
  cases hs : u.scheme with
  | nil => exact absurd hs h
  | cons a as => simp

theorem urlToString_ne_nil {u : URLRec} (h : u.scheme ≠ []) : urlToString u ≠ [] := by
  unfold urlToString
  have := urlOrigin_ne_nil h
  cases ho : urlOrigin u with
  | nil => exact absurd ho this
  | cons a as => simp

theorem validOrigin_spec {v : JSValue} {s : JStr} (h : validOrigin v = some s) :
    ∃ u, wfURL u ∧ s = urlOrigin u := by
  unfold validOrigin at h
  split at h
  · rename_i s0
    dsimp only at h
    split at h
    · exact absurd h (by simp)
    · cases hp : parseURL (jsTrim s0) with
      | none => rw [hp] at h; exact absurd h (by simp)
      | some u =>
        rw [hp] at h
        simp at h
        exact ⟨u, parseURL_wf hp, h.symm⟩
  · exact absurd h (by simp)

theorem validOrigin_stable {u : URLRec} (h : wfURL u) :
    validOrigin (.vStr (urlOrigin u)) = some (urlOrigin u) := by
  unfold validOrigin
  dsimp only
  rw [jsTrim_eq_self (noEdgeWs_urlOrigin h)]
  rw [if_neg (by simpa [List.isEmpty_iff] using urlOrigin_ne_nil h.1)]
  rw [parseURL_origin h]
  rfl

theorem validUrl_spec {v : JSValue} {s : JStr} (h : validUrl v = some s) :
    ∃ u, wfURL u ∧ s = urlToString u ∧
      (urlProtocol u = ("http:").toList ∨ urlProtocol u = ("https:").toList) := by
  unfold validUrl at h
  split at h
  · rename_i s0
    dsimp only at h
    split at h
    · exact absurd h (by simp)
    · cases hp : parseURL (jsTrim s0) with
      | none => rw [hp] at h; exact absurd h (by simp)
      | some u =>
        rw [hp] at h
        dsimp only at h
        by_cases hproto : urlProtocol u = ("http:").toList ∨
            urlProtocol u = ("https:").toList
        · rw [if_pos hproto] at h
          injection h with h2
          exact ⟨u, parseURL_wf hp, h2.symm, hproto⟩
        · rw [if_neg hproto] at h
          exact absurd h (by simp)
  · exact absurd h (by simp)

theorem validUrl_stable {u : URLRec} (h : wfURL u)
    (hp : urlProtocol u = ("http:").toList ∨ urlProtocol u = ("https:").toList) :
    validUrl (.vStr (urlToString u)) = some (urlToString u) := by
  unfold validUrl
  dsimp only
  rw [jsTrim_eq_self (noEdgeWs_urlToString h)]
  rw [if_neg (by simpa [List.isEmpty_iff] using urlToString_ne_nil h.1)]
  rw [parseURL_toString h]
  dsimp only
  rw [if_pos hp]

theorem sanitizeOrigins_all_valid {w : JSValue} :
    ∀ s ∈ sanitizeOrigins w 25, validOrigin (.vStr s) = some s := by
  intro s hs
  unfold sanitizeOrigins at hs
  split at hs
  · have h1 := mem_dedupFirstGo _ _ _ hs
    obtain ⟨v, _, hv⟩ := mem_collectValid h1
    obtain ⟨u, hwf, rfl⟩ := validOrigin_spec hv
    exact validOrigin_stable hwf
  · simp at hs

theorem sanitizeOrigins_nodup (w : JSValue) : (sanitizeOrigins w 25).Nodup := by
  unfold sanitizeOrigins
  split
  · exact nodup_dedupFirstGo _ _ (le_refl _)
  · simp

theorem sanitizeOrigins_stable (w : JSValue) :
    sanitizeOrigins (strListToJS (sanitizeOrigins w 25)) 25 = sanitizeOrigins w 25 := by
  have hval := sanitizeOrigins_all_valid (w := w)
  have hlen := sanitizeOrigins_length w
  have hnd := sanitizeOrigins_nodup w
  conv_lhs => rw [strListToJS, sanitizeOrigins]
  rw [collectValid_all_valid _ _ hval (by omega) hlen]
  unfold dedupFirst
  exact dedupFirstGo_eq_self _ _ hnd (le_refl _)

theorem sanitizeUrlList_all_valid {w : JSValue} :
    ∀ s ∈ sanitizeUrlList w 50, validUrl (.vStr s) = some s := by
  intro s hs
  unfold sanitizeUrlList at hs
  split at hs
  · obtain ⟨v, _, hv⟩ := mem_collectValid hs
    obtain ⟨u, hwf, rfl, hproto⟩ := validUrl_spec hv
    exact validUrl_stable hwf hproto
  · simp at hs

theorem sanitizeUrlList_stable (w : JSValue) :
    sanitizeUrlList (strListToJS (sanitizeUrlList w 50)) 50 = sanitizeUrlList w 50 := by
  have hval := sanitizeUrlList_all_valid (w := w)
  have hlen := sanitizeUrlList_length w
  conv_lhs => rw [strListToJS, sanitizeUrlList]
  exact collectValid_all_valid _ _ hval (by omega) hlen

theorem jsTrim_idem (s : JStr) : jsTrim (jsTrim s) = jsTrim s :=
  jsTrim_eq_self (jsTrim_noEdgeWs s)

theorem strToActionType_actionTypeToStr (t : ActionType) :
    strToActionType (actionTypeToStr t) = some t := by
  cases t <;> rfl

theorem optOfNonempty_trimmed_spec {v : JSValue} {s1 : JStr}
    (h : optOfNonempty (trimmedStrField v) = some s1) :
    jsTrim s1 = s1 ∧ s1.isEmpty = false := by
  unfold optOfNonempty at h
  split at h
  · exact absurd h (by simp)
  · rename_i hne
    injection h with h
    subst h
    refine ⟨?_, by simpa using hne⟩
    unfold trimmedStrField
    split
    · exact jsTrim_idem _
    · rfl

theorem trimmedStrField_of_trimmed {s : JStr} (h : jsTrim s = s) :
    trimmedStrField (.vStr s) = s := by
  simp [trimmedStrField, asString?, h]

theorem optOfNonempty_of_nonempty {s : JStr} (h : s.isEmpty = false) :
    optOfNonempty s = some s := by
  simp [optOfNonempty, h]

theorem parsedWebhook_spec {s w : JStr}
    (h : optOfNonempty (parsedWebhookOf s) = some w) :
    ∃ u, wfURL u ∧ w = urlToString u := by
  unfold optOfNonempty at h
  split at h
  · exact absurd h (by simp)
  · rename_i hne
    injection h with h
    unfold parsedWebhookOf at h hne
    by_cases hse : s.isEmpty
    · rw [if_pos hse] at hne
      simp at hne
    · rw [if_neg hse] at h hne
      cases hp : parseURL s with
      | none =>
        rw [hp] at hne
        simp at hne
      | some u =>
        rw [hp] at h
        exact ⟨u, parseURL_wf hp, h.symm⟩

theorem parsedWebhook_stable {u : URLRec} (hwf : wfURL u) :
    parsedWebhookOf (urlToString u) = urlToString u := by
  unfold parsedWebhookOf
  rw [if_neg (by simpa [List.isEmpty_iff] using urlToString_ne_nil hwf.1)]
  rw [parseURL_toString hwf]

theorem pickAllowedTypes_atListToJS (l : List ActionType) :
    pickAllowedTypes (atListToJS (some l)) = some l := by
  unfold pickAllowedTypes atListToJS
  refine congrArg some ?_
  rw [List.filterMap_map]
  have hcomp : ∀ t ∈ l,
      ((fun t => match t with
        | JSValue.vStr s => strToActionType s
        | _ => Option.none) ∘ (fun t => JSValue.vStr (actionTypeToStr t))) t
        = some t := by
    intro t _
    simp only [Function.comp]
    exact strToActionType_actionTypeToStr t
  rw [List.filterMap_congr hcomp]
  exact List.filterMap_some ..

/-- A normalized action config re-read from its JSON form normalizes to
itself, given the shape facts the normalizer guarantees. -/
theorem normalizeActionConfig_selfJS (a : BotActionConfig)
    (hwa : ∀ u0, a.webhookUrl = some u0 → ∃ uu, wfURL uu ∧ u0 = urlToString uu)
    (hwh : ∀ s1, a.webhookAuthHeader = some s1 → jsTrim s1 = s1 ∧ s1.isEmpty = false)
    (hws : ∀ s1, a.webhookSecret = some s1 → jsTrim s1 = s1 ∧ s1.isEmpty = false)
    (hat : ∀ l, a.allowedActionTypes = some l → l.isEmpty = false) :
    normalizeActionConfig (botActionToJS a) = some a := by
  obtain ⟨en, wu, wah, wsec, aat⟩ := a
  unfold normalizeActionConfig
  rw [if_neg (by simp [botActionToJS, jsTruthy, jsIsObjectType])]
  have hg1 : jsGet (botActionToJS ⟨en, wu, wah, wsec, aat⟩)
      (("actionsEnabled").toList) = .vBool en := rfl
  have hg2 : jsGet (botActionToJS ⟨en, wu, wah, wsec, aat⟩)
      (("webhookUrl").toList) = optStrToJS wu := rfl
  have hg3 : jsGet (botActionToJS ⟨en, wu, wah, wsec, aat⟩)
      (("webhookAuthHeader").toList) = optStrToJS wah := rfl
  have hg4 : jsGet (botActionToJS ⟨en, wu, wah, wsec, aat⟩)
      (("webhookSecret").toList) = optStrToJS wsec := rfl
  have hg5 : jsGet (botActionToJS ⟨en, wu, wah, wsec, aat⟩)
      (("allowedActionTypes").toList) = atListToJS aat := rfl
  rw [hg1, hg2, hg3, hg4, hg5]
  refine congrArg some ?_
  simp only [BotActionConfig.mk.injEq]
  refine ⟨rfl, ?_, ?_, ?_, ?_⟩
  · cases hwu : wu with
    | none => rfl
    | some w =>
      obtain ⟨uu, hwf, rfl⟩ := hwa w hwu
      rw [show optStrToJS (some (urlToString uu)) = .vStr (urlToString uu) from rfl]
      rw [trimmedStrField_of_trimmed (jsTrim_eq_self (noEdgeWs_urlToString hwf))]
      rw [parsedWebhook_stable hwf]
      exact optOfNonempty_of_nonempty
        (by simpa [List.isEmpty_iff] using urlToString_ne_nil hwf.1)
  · cases hwah : wah with
    | none => rfl
    | some s1 =>
      obtain ⟨ht, hne⟩ := hwh s1 hwah
      rw [show optStrToJS (some s1) = .vStr s1 from rfl]
      rw [trimmedStrField_of_trimmed ht]
      exact optOfNonempty_of_nonempty hne
  · cases hwsec : wsec with
    | none => rfl
    | some s1 =>
      obtain ⟨ht, hne⟩ := hws s1 hwsec
      rw [show optStrToJS (some s1) = .vStr s1 from rfl]
      rw [trimmedStrField_of_trimmed ht]
      exact optOfNonempty_of_nonempty hne
  · cases haat : aat with
    | none => rfl
    | some l =>
      have hne := hat l haat
      rw [pickAllowedTypes_atListToJS]
      simp [hne]

theorem normalizeActionConfig_roundtrip {w : JSValue} {a : BotActionConfig}
    (h : normalizeActionConfig w = some a) :
    normalizeActionConfig (botActionToJS a) = some a := by
  unfold normalizeActionConfig at h
  split at h
  · exact absurd h (by simp)
  obtain rfl : _ = a := by injection h
  refine normalizeActionConfig_selfJS _ ?_ ?_ ?_ ?_
  · intro u0 hu0
    exact parsedWebhook_spec hu0
  · intro s1 hs1
    exact optOfNonempty_trimmed_spec hs1
  · intro s1 hs1
    exact optOfNonempty_trimmed_spec hs1
  · intro l hl
    dsimp only at hl
    split at hl
    · rename_i l2 heq
      split at hl
      · exact absurd hl (by simp)
      · rename_i hne
        injection hl with hl
        subst hl
        simpa using hne
    · exact absurd hl (by simp)

theorem sanitizeOrigins_coalesce_idem (v X : JSValue) :
    sanitizeOrigins (jsCoalesce v
      (strListToJS (sanitizeOrigins (jsCoalesce v X) 25))) 25
      = sanitizeOrigins (jsCoalesce v X) 25 := by
  cases v with
  | vUndef => exact sanitizeOrigins_stable X
  | vNull => exact sanitizeOrigins_stable X
  | _ => rfl

theorem sanitizeUrlList_coalesce_idem (v X : JSValue) :
    sanitizeUrlList (jsCoalesce v
      (strListToJS (sanitizeUrlList (jsCoalesce v X) 50))) 50
      = sanitizeUrlList (jsCoalesce v X) 50 := by
  cases v with
  | vUndef => exact sanitizeUrlList_stable X
  | vNull => exact sanitizeUrlList_stable X
  | _ => rfl

theorem normalizeActionConfig_vUndef : normalizeActionConfig .vUndef = Option.none := rfl

theorem normalizeActionConfig_coalesce_idem (v A : JSValue) :
    normalizeActionConfig (jsCoalesce v
      (optActionToJS (normalizeActionConfig (jsCoalesce v A)))) =
      normalizeActionConfig (jsCoalesce v A) := by
  cases v with
  | vUndef =>
    show normalizeActionConfig (jsCoalesce .vUndef
      (optActionToJS (normalizeActionConfig A))) = normalizeActionConfig A
    cases hr : normalizeActionConfig A with
    | none => rfl
    | some a => exact normalizeActionConfig_roundtrip hr
  | vNull =>
    show normalizeActionConfig (jsCoalesce .vNull
      (optActionToJS (normalizeActionConfig A))) = normalizeActionConfig A
    cases hr : normalizeActionConfig A with
    | none => rfl
    | some a => exact normalizeActionConfig_roundtrip hr
  | _ => rfl

/-- C8: the upsert normalization is idempotent — re-normalizing the same
body against the record just stored returns that record unchanged. -/
theorem normalizeConfig_idem (incoming : JSValue) (existing : Option BotConfig)
    (cfg : BotConfig) (h : normalizeConfig incoming existing = some cfg) :
    normalizeConfig incoming (some cfg) = some cfg := by
  unfold normalizeConfig at h ⊢
  dsimp only at h ⊢
  by_cases hbot : (incomingBotId incoming).isEmpty
  · rw [if_pos hbot] at h
    exact absurd h (by simp)
  rw [if_neg hbot] at h ⊢
  obtain rfl : _ = cfg := by injection h
  refine congrArg some ?_
  simp only [BotConfig.mk.injEq, true_and, and_true]
  refine ⟨?_, ?_, ?_, ?_, ?_, ?_, ?_, ?_, ?_, ?_, ?_, ?_, ?_, ?_, ?_, ?_,
    ?_, ?_, ?_, ?_, ?_, ?_, ?_⟩
  · exact postFalsy_trim_idem _ _ _ (by simpa using hbot)
  · exact postFalsy_trim_idem _ _ _ (by decide)
  · exact strFieldTrim_idem ..
  · exact strFieldTrim_idem ..
  · exact clampInt_idem ..
  · exact sanitizeOrigins_coalesce_idem ..
  · exact strFieldTrim_idem ..
  · exact pickLeadMode_idem ..
  · exact pickQualifying_idem ..
  · exact strFieldRaw_idem ..
  · exact sanitizeUrlList_coalesce_idem ..
  · exact pickRagEnabled_idem ..
  · exact pickRagMode_idem ..
  · exact clampInt_idem ..
  · exact clampInt_idem ..
  · exact clampInt_idem ..
  · exact clampInt_idem ..
  · exact strFieldTrim_idem ..
  · exact clampInt_idem ..
  · exact clampInt_idem ..
  · simp only [RateLimitConfig.mk.injEq]
    exact ⟨clampInt_idem .., clampInt_idem ..⟩
  · exact normalizeDailyBudget_idem ..
  · exact normalizeActionConfig_coalesce_idem ..

/-! ### Prompt assembly (worker/src/index.ts lines 614-618 and 996-1016) -/

inductive Role where
  | user | assistant | system
deriving DecidableEq, Repr

structure ChatMessage where
  role : Role
  content : JStr
deriving DecidableEq, Repr

/-- Embedding of `truncateTextToLimit`. -/
def truncateTextToLimit (s : JStr) (maxChars : Nat) : JStr :=
  if s.length ≤ maxChars then s else s.take (maxChars - 1) ++ ['…']

def totalChars (l : List ChatMessage) : Nat :=
  (l.map (fun m => m.content.length)).sum

/-- The oldest-dropping loop of `handleChat` (lines 1005-1013): walk the
turns newest-first, keep each while the running size stays within the
ceiling, and stop at the first turn that would push past it. `rev` is
the turn list newest-first, `acc` the kept suffix built so far, `sz`
the size of the system message plus `acc`. -/
def capKeepGo : List ChatMessage → List ChatMessage → Nat → List ChatMessage
  | [], acc, _ => acc
  | m :: older, acc, sz =>
    if sz + m.content.length > GLOBAL_MAX_TOTAL_INPUT_CHARS then acc
    else capKeepGo older (m :: acc) (sz + m.content.length)

/-- Embedding of the total-input hard cap (lines 1001-1016). -/
def capTotalInput (input : List ChatMessage) : List ChatMessage :=
  if totalChars input ≤ GLOBAL_MAX_TOTAL_INPUT_CHARS then input
  else
    match input with
    | [] => []
    | sys :: rest => sys :: capKeepGo rest.reverse [] sys.content.length

/-- The system message of line 999: the concatenated prompt hard-capped
to the system-chars ceiling (line 997). -/
def systemMsgOf (sysRaw : JStr) : ChatMessage :=
  { role := .system, content := truncateTextToLimit sysRaw GLOBAL_MAX_SYSTEM_CHARS }

/-- The full message-list assembly of `handleChat` (lines 996-1016): the
system message followed by the trimmed turns, then the total-input cap. -/
def assembleModelInput (sysRaw : JStr) (trimmed : List ChatMessage) : List ChatMessage :=
  capTotalInput (systemMsgOf sysRaw :: trimmed)

theorem truncateTextToLimit_length (s : JStr) (n : Nat) (hn : 1 ≤ n) :
    (truncateTextToLimit s n).length ≤ n := by
  unfold truncateTextToLimit
  split
  · assumption
  · rename_i hgt
    simp only [List.length_append, List.length_take, List.length_cons,
      List.length_nil]
    omega

theorem totalChars_cons (m : ChatMessage) (l : List ChatMessage) :
    totalChars (m :: l) = m.content.length + totalChars l := by
  simp [totalChars]

theorem totalChars_reverse (l : List ChatMessage) :
    totalChars l.reverse = totalChars l := by
  simp [totalChars, List.map_reverse, List.sum_reverse]

theorem capKeepGo_spec : ∀ (rev acc : List ChatMessage) (sz : Nat),
    sz ≤ GLOBAL_MAX_TOTAL_INPUT_CHARS →
    ∃ i, i ≤ rev.length ∧
      capKeepGo rev acc sz = (rev.take i).reverse ++ acc ∧
      sz + totalChars (rev.take i) ≤ GLOBAL_MAX_TOTAL_INPUT_CHARS ∧
      (i < rev.length → sz + totalChars (rev.take (i + 1)) >
        GLOBAL_MAX_TOTAL_INPUT_CHARS) := by
  intro rev
  induction rev with
  | nil =>
    intro acc sz hsz
    exact ⟨0, by simp, rfl, by simpa [totalChars] using hsz, by simp⟩
  | cons m older ih =>
    intro acc sz hsz
    by_cases hover : sz + m.content.length > GLOBAL_MAX_TOTAL_INPUT_CHARS
    · refine ⟨0, by simp, ?_, by simpa [totalChars] using hsz, ?_⟩
      · simp [capKeepGo, hover]
      · intro _
        simpa [totalChars_cons] using hover
    · push_neg at hover
      obtain ⟨i, hi, heq, hle, hmax⟩ := ih (m :: acc) (sz + m.content.length) hover
      refine ⟨i + 1, by simpa using hi, ?_, ?_, ?_⟩
      · rw [capKeepGo, if_neg (by omega)]
        rw [heq]
        simp [List.take_succ_cons]
      · rw [List.take_succ_cons, totalChars_cons]
        omega
      · intro hlt
        have := hmax (by simpa using hlt)
        rw [List.take_succ_cons, totalChars_cons]
        omega

theorem capTotalInput_spec (sys : ChatMessage) (rest : List ChatMessage)
    (hsys : sys.content.length ≤ GLOBAL_MAX_TOTAL_INPUT_CHARS) :
    ∃ k, k ≤ rest.length ∧
      capTotalInput (sys :: rest) = sys :: rest.drop k ∧
      totalChars (sys :: rest.drop k) ≤ GLOBAL_MAX_TOTAL_INPUT_CHARS ∧
      (0 < k → totalChars (sys :: rest.drop (k - 1)) >
        GLOBAL_MAX_TOTAL_INPUT_CHARS) := by
  unfold capTotalInput
  split
  · rename_i hfits
    exact ⟨0, by simp, rfl, by simpa using hfits, by simp⟩
  · rename_i hbig
    dsimp only
    obtain ⟨i, hi, heq, hle, hmax⟩ :=
      capKeepGo_spec rest.reverse [] sys.content.length hsys
    rw [List.length_reverse] at hi
    have hdropEq : ∀ j, j ≤ rest.length →
        (rest.reverse.take j).reverse = rest.drop (rest.length - j) := by
      intro j hj
      have := List.reverse_drop (l := rest) (n := rest.length - j)
      have h2 : rest.length - (rest.length - j) = j := by omega
      rw [h2] at this
      rw [← this, List.reverse_reverse]
    refine ⟨rest.length - i, by omega, ?_, ?_, ?_⟩
    · rw [heq, List.append_nil, hdropEq i hi]
    · rw [totalChars_cons]
      have htc : totalChars (rest.drop (rest.length - i)) =
          totalChars (rest.reverse.take i) := by
        rw [← hdropEq i hi, totalChars_reverse]
      omega
    · intro hk
      have hilt : i < rest.length := by omega
      have := hmax (by simpa using hilt)
      have heq2 : rest.drop (rest.length - i - 1) =
          (rest.reverse.take (i + 1)).reverse := by
        have h3 : rest.length - i - 1 = rest.length - (i + 1) := by omega
        rw [hdropEq (i + 1) (by omega), h3]
      rw [totalChars_cons, heq2, totalChars_reverse]
      omega

/-- C2: the assembled message list never exceeds the global total-input
ceiling, always starts with the (system-capped) system message, only
ever drops a prefix (the oldest turns) of the conversation, keeps
everything when the combined total fits, and when turns are dropped the
dropping stops as soon as the ceiling is met. -/
theorem assembleModelInput_spec (sysRaw : JStr) (trimmed : List ChatMessage) :
    totalChars (assembleModelInput sysRaw trimmed) ≤ GLOBAL_MAX_TOTAL_INPUT_CHARS ∧
    (∃ k, k ≤ trimmed.length ∧
      assembleModelInput sysRaw trimmed = systemMsgOf sysRaw :: trimmed.drop k ∧
      (0 < k → totalChars (systemMsgOf sysRaw :: trimmed.drop (k - 1)) >
        GLOBAL_MAX_TOTAL_INPUT_CHARS)) ∧
    (totalChars (systemMsgOf sysRaw :: trimmed) ≤ GLOBAL_MAX_TOTAL_INPUT_CHARS →
      assembleModelInput sysRaw trimmed = systemMsgOf sysRaw :: trimmed) := by
  have hsys : (systemMsgOf sysRaw).content.length ≤ GLOBAL_MAX_TOTAL_INPUT_CHARS := by
    have h1 := truncateTextToLimit_length sysRaw GLOBAL_MAX_SYSTEM_CHARS
      (by norm_num [GLOBAL_MAX_SYSTEM_CHARS])
    exact le_trans h1
      (by norm_num [GLOBAL_MAX_SYSTEM_CHARS, GLOBAL_MAX_TOTAL_INPUT_CHARS])
  obtain ⟨k, hk, heq, hle, hmax⟩ := capTotalInput_spec (systemMsgOf sysRaw) trimmed hsys
  refine ⟨?_, ⟨k, hk, ?_, ?_⟩, ?_⟩
  · rw [assembleModelInput, heq]
    exact hle
  · rw [assembleModelInput, heq]
  · exact hmax
  · intro hfits
    rw [assembleModelInput, capTotalInput, if_pos hfits]

/-! ### Simple-mode URL selection (worker/src/index.ts lines 520-539) -/

def wordChar (c : Char) : Bool := c.isAlphanum || c == '_'

theorem length_dropWhile_le (p : Char → Bool) (l : JStr) :
    (l.dropWhile p).length ≤ l.length := by
  induction l with
  | nil => simp [List.dropWhile]
  | cons a as ih =>
    by_cases hp : p a
    · rw [List.dropWhile_cons_of_pos hp]
      exact le_trans ih (by simp)
    · rw [List.dropWhile_cons_of_neg hp]

/-- Model of `q.split(/\W+/g).filter(Boolean)`: the maximal runs of
word characters. -/
def splitWords : JStr → List JStr
  | [] => []
  | c :: cs =>
    if wordChar c then
      (c :: cs.takeWhile wordChar) :: splitWords (cs.dropWhile wordChar)
    else splitWords cs
termination_by l => l.length
decreasing_by
  · simp only [List.length_cons]
    exact Nat.lt_succ_of_le (length_dropWhile_le ..)
  · simp

structure ScoredUrl where
  u : JStr
  score : Int
deriving DecidableEq, Repr

/-- The first 20 query terms (`slice(0, 20)`). -/
def queryTerms (q : JStr) : List JStr := (splitWords q).take 20

/-- The relevance score of one URL for the lowercased question `q`:
2 per matching term of length at least 3, plus the 5-point boosts for
the pricing/contact/privacy/terms path keywords. -/
def scoreUrl (q : JStr) (terms : List JStr) (u : JStr) : Int :=
  let p := jsToLower u
  let base := terms.foldl (fun acc term =>
    if term.length < 3 then acc
    else if jsIncludes p term then acc + 2 else acc) 0
  let b1 := if (jsIncludes q (("price").toList) || jsIncludes q (("pricing").toList)
      || jsIncludes q (("cost").toList)) && jsIncludes p (("pricing").toList)
    then 5 else 0
  let b2 := if (jsIncludes q (("contact").toList) || jsIncludes q (("quote").toList))
      && jsIncludes p (("contact").toList) then 5 else 0
  let b3 := if jsIncludes q (("privacy").toList) && jsIncludes p (("privacy").toList)
    then 5 else 0
  let b4 := if jsIncludes q (("terms").toList) && jsIncludes p (("terms").toList)
    then 5 else 0
  base + b1 + b2 + b3 + b4

/-- The scored array (`urls.map(u => ({u, score}))`). -/
def scoredOf (question : JStr) (urls : List JStr) : List ScoredUrl :=
  urls.map (fun u =>
    ⟨u, scoreUrl (jsToLower question) (queryTerms (jsToLower question)) u⟩)

/-- Stable insertion for the descending-by-score sort: an element is
placed before the first element whose score does not exceed it, so
earlier elements win ties. -/
def insertStable (x : ScoredUrl) : List ScoredUrl → List ScoredUrl
  | [] => [x]
  | y :: ys => if y.score ≤ x.score then x :: y :: ys else y :: insertStable x ys

/-- Model of `scored.sort((a, b) => b.score - a.score)` — a stable
descending sort (ES2019 requires `Array.prototype.sort` stability). -/
def sortDesc : List ScoredUrl → List ScoredUrl
  | [] => []
  | x :: xs => insertStable x (sortDesc xs)

/-- Embedding of `selectRelevantUrls(question, urls, max)`. -/
def selectRelevantUrls (question : JStr) (urls : List JStr) (max : Int) : List JStr :=
  if urls.isEmpty || max ≤ 0 then []
  else ((sortDesc (scoredOf question urls)).take max.toNat).map (fun s => s.u)

theorem insertStable_length (x : ScoredUrl) (l : List ScoredUrl) :
    (insertStable x l).length = l.length + 1 := by
  induction l with
  | nil => rfl
  | cons y ys ih =>
    rw [insertStable]
    split
    · simp
    · simp [ih]

theorem sortDesc_length (l : List ScoredUrl) : (sortDesc l).length = l.length := by
  induction l with
  | nil => rfl
  | cons x xs ih =>
    rw [sortDesc, insertStable_length, ih, List.length_cons]

theorem mem_insertStable {z x : ScoredUrl} {l : List ScoredUrl}
    (h : z ∈ insertStable x l) : z = x ∨ z ∈ l := by
  induction l with
  | nil => simpa [insertStable] using h
  | cons y ys ih =>
    rw [insertStable] at h
    split at h
    · rcases List.mem_cons.mp h with h1 | h2
      · exact Or.inl h1
      · exact Or.inr h2
    · rcases List.mem_cons.mp h with h1 | h2
      · exact Or.inr (by simp [h1])
      · rcases ih h2 with h3 | h4
        · exact Or.inl h3
        · exact Or.inr (by simp [h4])

theorem sorted_insertStable {x : ScoredUrl} {l : List ScoredUrl}
    (h : List.Pairwise (fun a b => b.score ≤ a.score) l) :
    List.Pairwise (fun a b => b.score ≤ a.score) (insertStable x l) := by
  induction l with
  | nil => simp [insertStable]
  | cons y ys ih =>
    rw [insertStable]
    obtain ⟨hy, hys⟩ := List.pairwise_cons.mp h
    split
    · rename_i hxy
      refine List.pairwise_cons.mpr ⟨?_, h⟩
      intro z hz
      rcases List.mem_cons.mp hz with h1 | h2
      · simp [h1, hxy]
      · exact le_trans (hy z h2) hxy
    · rename_i hxy
      push_neg at hxy
      refine List.pairwise_cons.mpr ⟨?_, ih hys⟩
      intro z hz
      rcases mem_insertStable hz with h1 | h2
      · subst h1
        omega
      · exact hy z h2

theorem sortDesc_sorted (l : List ScoredUrl) :
    List.Pairwise (fun a b => b.score ≤ a.score) (sortDesc l) := by
  induction l with
  | nil => simp [sortDesc]
  | cons x xs ih => exact sorted_insertStable ih

theorem insertStable_filter (x : ScoredUrl) (l : List ScoredUrl) (s : Int) :
    (insertStable x l).filter (fun z => z.score == s) =
      (if x.score = s then [x] else []) ++ l.filter (fun z => z.score == s) := by
  induction l with
  | nil =>
    rw [insertStable]
    by_cases hx : x.score = s <;> simp [hx]
  | cons y ys ih =>
    rw [insertStable]
    split
    · by_cases hx : x.score = s <;> by_cases hy : y.score = s <;>
        simp [List.filter_cons, beq_iff_eq, hx, hy]
    · rename_i hxy
      by_cases hx : x.score = s <;> by_cases hy : y.score = s
      · exact absurd (by omega : y.score ≤ x.score) hxy
      · simp [List.filter_cons, beq_iff_eq, hx, hy, ih]
      · simp [List.filter_cons, beq_iff_eq, hx, hy, ih]
      · simp [List.filter_cons, beq_iff_eq, hx, hy, ih]

theorem sortDesc_filter (l : List ScoredUrl) (s : Int) :
    (sortDesc l).filter (fun z => z.score == s) =
      l.filter (fun z => z.score == s) := by
  induction l with
  | nil => rfl
  | cons x xs ih =>
    rw [sortDesc, insertStable_filter, ih]
    by_cases hx : x.score = s <;> simp [List.filter_cons, beq_iff_eq, hx]

/-- C9: with a nonempty URL list and a positive cap, simple-mode
selection returns exactly `min max |urls|` candidates (the heuristic
only ranks, never filters to empty), the ranking is sorted by
descending score, and equal-score entries keep their original
configured order (the filtered subsequence at every score value is
unchanged by the sort). -/
theorem selectRelevantUrls_spec (question : JStr) (urls : List JStr) (max : Int)
    (hurls : urls ≠ []) (hmax : 0 < max) :
    (selectRelevantUrls question urls max).length =
      min max.toNat urls.length ∧
    List.Pairwise (fun a b => b.score ≤ a.score) (sortDesc (scoredOf question urls)) ∧
    (∀ s : Int, (sortDesc (scoredOf question urls)).filter (fun z => z.score == s) =
      (scoredOf question urls).filter (fun z => z.score == s)) := by
  refine ⟨?_, sortDesc_sorted _, fun s => sortDesc_filter _ s⟩
  unfold selectRelevantUrls
  rw [if_neg (by
    simp only [Bool.or_eq_true, not_or]
    constructor
    · simpa [List.isEmpty_iff] using hurls
    · simpa using hmax)]
  rw [List.length_map, List.length_take, sortDesc_length]
  unfold scoredOf
  rw [List.length_map]

/-! ### Request headers, origin and client IP (lines 180-197, 395-398) -/

def intToJStr (n : Int) : JStr :=
  if n < 0 then '-' :: Nat.toDigits 10 (-n).toNat
  else Nat.toDigits 10 n.toNat

def joinSep (sep : JStr) : List JStr → JStr
  | [] => []
  | [x] => x
  | x :: xs => x ++ sep ++ joinSep sep xs

mutual
/-- Model of the JS `String(v)` coercion. -/
def jsToStringCoerce : JSValue → JStr
  | .vUndef => ("undefined").toList
  | .vNull => ("null").toList
  | .vBool true => ("true").toList
  | .vBool false => ("false").toList
  | .vNum n => intToJStr n
  | .vStr s => s
  | .vArr xs => joinCoerce xs
  | .vObj _ => ("[object Object]").toList

def joinCoerce : List JSValue → JStr
  | [] => []
  | [x] => jsToStringCoerce x
  | x :: xs => jsToStringCoerce x ++ ',' :: joinCoerce xs
end

/-- Embedding of `estimateTokensFromText` (line 898): around four
characters per token, at least one. -/
def estimateTokensFromText (s : JStr) : Int :=
  max 1 (((s.length : Int) + 3) / 4)

structure ReqHeaders where
  origin : Option JStr
  xForwardedProto : Option JStr
  xForwardedProtocol : Option JStr
  xForwardedHost : Option JStr
  host : Option JStr
  cfConnectingIp : Option JStr
  xForwardedFor : Option JStr
  xBotKey : Option JStr

/-- Model of `getHeader`: absent headers read as the empty string. -/
def getHeader (h : Option JStr) : JStr := h.getD []

/-- Embedding of `getRequestOrigin` (lines 185-197): use the `Origin`
header when present, otherwise synthesize an origin from the forwarded
protocol and host headers, otherwise the empty string. -/
def getRequestOrigin (h : ReqHeaders) : JStr :=
  let o := getHeader h.origin
  if !o.isEmpty then o
  else
    let p1 := getHeader h.xForwardedProto
    let p2 := getHeader h.xForwardedProtocol
    let proto := if !p1.isEmpty then p1
      else if !p2.isEmpty then p2 else ("https").toList
    let h1 := getHeader h.xForwardedHost
    let hostv := if !h1.isEmpty then h1 else getHeader h.host
    if !hostv.isEmpty then proto ++ ("://").toList ++ hostv
    else []

/-- Embedding of `isOriginAllowed` (lines 248-257). -/
def isOriginAllowed (origin : JStr) (allowedOrigins : List JStr) : Bool :=
  if origin.isEmpty then false
  else if allowedOrigins.isEmpty then true
  else
    match parseURL origin with
    | some u => allowedOrigins.contains (urlOrigin u)
    | Option.none => false

/-- Embedding of `ipFromReq` (lines 395-398). -/
def ipFromReq (h : ReqHeaders) : JStr :=
  let i1 := getHeader h.cfConnectingIp
  let ip := if !i1.isEmpty then i1 else getHeader h.xForwardedFor
  let first := jsTrim (ip.takeWhile (fun c => !(c == ',')))
  if first.isEmpty then ("unknown").toList else first

/-! ### A model of JSON.parse

Used by `safeJsonParse` on model output. Restricted to integer number
literals (a fractional or exponent part fails the parse, which the
worker treats as plain text). -/

def isJsonWs (c : Char) : Bool :=
  c == ' ' || c == '\t' || c == '\n' || c == '\r'

def skipWs (s : JStr) : JStr := s.dropWhile isJsonWs

def hexVal (c : Char) : Option Nat :=
  if c.isDigit then some (c.toNat - '0'.toNat)
  else if 'a' ≤ c ∧ c ≤ 'f' then some (c.toNat - 'a'.toNat + 10)
  else if 'A' ≤ c ∧ c ≤ 'F' then some (c.toNat - 'A'.toNat + 10)
  else Option.none

/-- String body parser: everything after the opening quote. -/
def parseJsonStrBody : JStr → Option (JStr × JStr)
  | [] => Option.none
  | '"' :: rest => some ([], rest)
  | '\\' :: e :: rest =>
    match e with
    | '"' => (parseJsonStrBody rest).map (fun p => ('"' :: p.1, p.2))
    | '\\' => (parseJsonStrBody rest).map (fun p => ('\\' :: p.1, p.2))
    | '/' => (parseJsonStrBody rest).map (fun p => ('/' :: p.1, p.2))
    | 'b' => (parseJsonStrBody rest).map (fun p => ('\x08' :: p.1, p.2))
    | 'f' => (parseJsonStrBody rest).map (fun p => ('\x0c' :: p.1, p.2))
    | 'n' => (parseJsonStrBody rest).map (fun p => ('\n' :: p.1, p.2))
    | 'r' => (parseJsonStrBody rest).map (fun p => ('\r' :: p.1, p.2))
    | 't' => (parseJsonStrBody rest).map (fun p => ('\t' :: p.1, p.2))
    | 'u' =>
      match rest with
      | h1 :: h2 :: h3 :: h4 :: r2 =>
        match hexVal h1, hexVal h2, hexVal h3, hexVal h4 with
        | some a, some b, some c, some d =>
          (parseJsonStrBody r2).map (fun p =>
            (Char.ofNat (((a * 16 + b) * 16 + c) * 16 + d) :: p.1, p.2))
        | _, _, _, _ => Option.none
      | _ => Option.none
    | _ => Option.none
  | c :: rest => (parseJsonStrBody rest).map (fun p => (c :: p.1, p.2))

def digitsToNat (ds : JStr) : Nat :=
  ds.foldl (fun acc c => acc * 10 + (c.toNat - '0'.toNat)) 0

/-- Integer literal parser; a following `.`, `e` or `E` fails the parse. -/
def parseJsonNum (s : JStr) : Option (Int × JStr) :=
  let core : JStr → Option (Nat × JStr) := fun t =>
    let ds := t.takeWhile Char.isDigit
    if ds.isEmpty then Option.none
    else
      let r := t.drop ds.length
      match r with
      | '.' :: _ => Option.none
      | 'e' :: _ => Option.none
      | 'E' :: _ => Option.none
      | _ => some (digitsToNat ds, r)
  match s with
  | '-' :: rest => (core rest).map (fun p => (-(p.1 : Int), p.2))
  | _ => (core s).map (fun p => ((p.1 : Int), p.2))

mutual
def parseJsonVal : Nat → JStr → Option (JSValue × JStr)
  | 0, _ => Option.none
  | fuel + 1, s =>
    match skipWs s with
    | 'n' :: 'u' :: 'l' :: 'l' :: rest => some (.vNull, rest)
    | 't' :: 'r' :: 'u' :: 'e' :: rest => some (.vBool true, rest)
    | 'f' :: 'a' :: 'l' :: 's' :: 'e' :: rest => some (.vBool false, rest)
    | '"' :: rest => (parseJsonStrBody rest).map (fun p => (.vStr p.1, p.2))
    | '[' :: rest =>
      (match skipWs rest with
       | ']' :: r2 => some (.vArr [], r2)
       | _ => (parseJsonArrItems fuel rest).map (fun p => (.vArr p.1, p.2)))
    | '\x7b' :: rest =>
      (match skipWs rest with
       | '\x7d' :: r2 => some (.vObj [], r2)
       | _ => (parseJsonObjItems fuel rest).map (fun p => (.vObj p.1, p.2)))
    | t => (parseJsonNum t).map (fun p => (.vNum p.1, p.2))

def parseJsonArrItems : Nat → JStr → Option (List JSValue × JStr)
  | 0, _ => Option.none
  | fuel + 1, s =>
    match parseJsonVal fuel s with
    | some (v, rest) =>
      (match skipWs rest with
       | ',' :: r2 =>
         (parseJsonArrItems fuel r2).map (fun p => (v :: p.1, p.2))
       | ']' :: r2 => some ([v], r2)
       | _ => Option.none)
    | Option.none => Option.none

def parseJsonObjItems : Nat → JStr → Option (List (JStr × JSValue) × JStr)
  | 0, _ => Option.none
  | fuel + 1, s =>
    match skipWs s with
    | '"' :: kr =>
      (match parseJsonStrBody kr with
       | some (k, rest) =>
         (match skipWs rest with
          | ':' :: r2 =>
            (match parseJsonVal fuel r2 with
             | some (v, r3) =>
               (match skipWs r3 with
                | ',' :: r4 =>
                  (parseJsonObjItems fuel r4).map (fun p => ((k, v) :: p.1, p.2))
                | '\x7d' :: r4 => some ([(k, v)], r4)
                | _ => Option.none)
             | Option.none => Option.none)
          | _ => Option.none)
       | Option.none => Option.none)
    | _ => Option.none
end

/-- Embedding of `safeJsonParse` (lines 265-271): `JSON.parse` with a
`catch` returning null (modelled as `none`). Requires the whole input
to be consumed. -/
def safeJsonParse (s : JStr) : Option JSValue :=
  match parseJsonVal (s.length + 1) s with
  | some (v, rest) => if (skipWs rest).isEmpty then some v else Option.none
  | Option.none => Option.none

/-! ### extractActionFromModelOutput (lines 739-757) -/

structure ExtractedAction where
  type : ActionType
  payload : JSValue

structure ExtractResult where
  message : JStr
  action : Option ExtractedAction

def extractActionFromModelOutput (rawText : JStr) : ExtractResult :=
  let trimmed := jsTrim rawText
  if trimmed.head? = some '\x7b' ∧ trimmed.getLast? = some '\x7d' then
    match safeJsonParse trimmed with
    | some parsed =>
      if jsTruthy parsed ∧ jsIsObjectType parsed then
        let msg : JStr :=
          match asString? (jsGet parsed (("message").toList)) with
          | some s => s
          | Option.none => []
        let act := jsGet parsed (("action").toList)
        match (if jsTruthy act ∧ jsIsObjectType act then
            (match jsGet act (("type").toList) with
             | .vStr ts => strToActionType ts
             | _ => Option.none)
          else Option.none) with
        | some t =>
          { message := msg, action := some ⟨t, jsGet act (("payload").toList)⟩ }
        | Option.none =>
          if msg.isEmpty then { message := trimmed, action := Option.none }
          else { message := msg, action := Option.none }
      else { message := trimmed, action := Option.none }
    | Option.none => { message := trimmed, action := Option.none }
  else { message := trimmed, action := Option.none }

/-! ### buildSystemPrompt (lines 688-737) -/

def buildSystemPrompt (cfg : BotConfig) : JStr :=
  let tone : JStr :=
    match cfg.tone with
    | some t => if (jsTrim t).isEmpty then ("calm, concise, high-trust").toList else jsTrim t
    | Option.none => ("calm, concise, high-trust").toList
  let qq : List JStr :=
    match cfg.qualifyingQuestions with
    | some l => l.filter (fun s => !s.isEmpty)
    | Option.none => []
  let qBlock : JStr :=
    if qq.length > 0 then
      ("Qualifying questions you may ask (only when needed, 1–2 at a time):\n- ").toList
        ++ joinSep (("\n- ").toList) qq ++ ("\n").toList
    else []
  let actionsEnabled : Bool :=
    match cfg.actions with
    | some a => a.actionsEnabled
    | Option.none => false
  let allowedActions : List ActionType :=
    match cfg.actions.bind (fun a => a.allowedActionTypes) with
    | some l =>
      if l.isEmpty then
        (if actionsEnabled then [.open_contact, .create_lead, .webhook, .none]
         else [.none])
      else l
    | Option.none =>
      if actionsEnabled then [.open_contact, .create_lead, .webhook, .none]
      else [.none]
  let actionBlock : JStr :=
    if actionsEnabled then
      ("\nActions:\nYou may optionally return a JSON object instead of plain text.\nAllowed action types: ").toList
        ++ joinSep ((", ").toList) (allowedActions.map actionTypeToStr)
        ++ (".\nJSON format:\n\x7b\n  \"message\": \"string (human reply)\",\n  \"action\": \x7b\n    \"type\": \"open_contact|create_lead|webhook|none\",\n    \"payload\": \x7b /* minimal structured data */ \x7d\n  \x7d\n\x7d\nRules:\n- Prefer plain text unless an action will materially help.\n- Only include user-provided details in payload.\n- Never invent phone numbers, emails, addresses, prices, SLAs, compliance claims, or guarantees.\n").toList
    else ("\nActions:\nDo NOT output JSON. Only output normal text.\n").toList
  let leadStyle : JStr :=
    match cfg.leadMode with
    | .soft => ("Be helpful first; only mention contacting sales when the user asks.").toList
    | .direct => ("Guide toward a quote once you have minimal scoping info; politely ask qualifying questions.").toList
    | .balanced => ("Answer and educate, then offer a quote/next step if relevant.").toList
  let truthRules : JStr := joinSep (("\n").toList)
    [("Truthfulness rules:").toList,
     ("- Do NOT invent numbers (prices, discounts, minimums), SLAs, certifications, or legal/compliance statements.").toList,
     ("- If asked for pricing and exact figures are not in the provided website sources, say pricing depends on scope and link the pricing page.").toList,
     ("- If asked about compliance/certs (ISO, SOC2, etc.) and it is not in the sources, say you can’t confirm from the site and suggest contacting the team.").toList,
     ("- If unsure, say so and ask a short clarifying question or point to the relevant page.").toList,
     ("- Keep replies concise and practical.").toList]
  let siteOrBot : JStr :=
    match cfg.siteName with
    | some s => if s.isEmpty then cfg.botId else s
    | Option.none => cfg.botId
  joinSep (("\n").toList)
    (([("You are the website assistant for \"").toList ++ siteOrBot ++ ("\".").toList,
       ("Tone: ").toList ++ tone ++ (".").toList,
       ("Behavior: ").toList ++ leadStyle,
       truthRules,
       qBlock,
       actionBlock]).filter (fun s => !s.isEmpty))

/-! ### The chat pipeline state (KV reads/writes, inference call) -/

structure BudgetState where
  requests : Int
  tokens : Int
deriving DecidableEq, Repr

inductive AIOutcome where
  | failure (msg : Option JStr)
  | success (result : JSValue)

/-- Everything `handleChat` reads from outside the request: the stored
config for the request's bot, the rate-limit counters, the stored
budget state for the bot's current UTC-day key, the clock, the RAG
retrieval oracle (network), and the inference call's outcome. -/
structure ChatWorld where
  cfg : Option BotConfig
  rlStore : JStr → JStr → Int → Int
  budget : BudgetState
  now : Int
  ragBlock : JStr → JStr
  aiOutcome : AIOutcome

inductive BudgetCheck where
  | passInactive
  | passActive
  | exceeded (detail : JStr)
deriving DecidableEq

/-- Embedding of `checkDailyBudget` (lines 442-478), with the stored
state for the day key passed in. `passActive` is the pass that carries
`dayKey`/`state` (so the post-call increment fires); `passInactive` is
a pass without them. -/
def checkDailyBudget (cfg : BotConfig) (state : BudgetState) : BudgetCheck :=
  match cfg.dailyBudget with
  | Option.none => .passInactive
  | some b =>
    let maxReq := clampNum b.maxRequestsPerDay 0 100000000
    let maxTok := clampNum b.maxTokensPerDay 0 100000000
    if maxReq ≤ 0 ∧ maxTok ≤ 0 then .passInactive
    else if 0 < maxReq ∧ maxReq ≤ state.requests then
      .exceeded (("Daily request budget exceeded for botId \"").toList
        ++ cfg.botId ++ ("\".").toList)
    else if 0 < maxTok ∧ maxTok ≤ state.tokens then
      .exceeded (("Daily token budget exceeded for botId \"").toList
        ++ cfg.botId ++ ("\".").toList)
    else .passActive

/-- Embedding of `incrementDailyBudget` (lines 480-493). -/
def incrementDailyBudget (state : BudgetState) (addRequests addTokens : Int) :
    BudgetState :=
  { requests := max 0 (state.requests + max 0 addRequests),
    tokens := max 0 (state.tokens + max 0 addTokens) }

def firstNonEmpty : List JStr → JStr
  | [] => []
  | x :: xs => if x.isEmpty then firstNonEmpty xs else x

/-- The `rawText` extraction from the AI result (lines 1037-1041). -/
def extractRawText (r : JSValue) : JStr :=
  let v1 := match asString? (jsGet r (("response").toList)) with
    | some s => s
    | Option.none => []
  let v2 := match asString? (jsGet (jsGet r (("result").toList)) (("response").toList)) with
    | some s => s
    | Option.none => []
  let v3 := match asString? (jsGet r (("output_text").toList)) with
    | some s => s
    | Option.none => []
  firstNonEmpty [v1, v2, v3]

/-- Model of `a || b` on JS values. -/
def jsOrV (a b : JSValue) : JSValue := if jsTruthy a then a else b

/-- The `usage` extraction (line 1043). -/
def extractUsage (r : JSValue) : JSValue :=
  jsOrV (jsGet r (("usage").toList))
    (jsOrV (jsGet (jsGet r (("result").toList)) (("usage").toList))
      (jsOrV (jsGet (jsGet r (("raw").toList)) (("usage").toList)) .vNull))

/-- The reported token count (lines 1045-1050). -/
def totalTokensFromModel (usage : JSValue) : Option Int :=
  match jsGet usage (("total_tokens").toList) with
  | .vNum n => some n
  | _ =>
    match jsGet usage (("totalTokens").toList) with
    | .vNum n => some n
    | _ => Option.none

/-- The message trimming loop (lines 974-982): last `maxTurns` entries,
only user/assistant roles, contents coerced to strings and cut to
`maxChars`, empties dropped. -/
def trimMessages (messages : List JSValue) (maxTurns maxChars : Int) :
    List ChatMessage :=
  (messages.drop (messages.length - maxTurns.toNat)).filterMap (fun m =>
    if ¬ (jsTruthy m ∧ jsIsObjectType m) then Option.none
    else
      let role : Option Role :=
        match jsGet m (("role").toList) with
        | .vStr s =>
          if s = ("user").toList then some .user
          else if s = ("assistant").toList then some .assistant
          else Option.none
        | _ => Option.none
      match role with
      | Option.none => Option.none
      | some r =>
        let c0 := jsGet m (("content").toList)
        let c1 : JStr :=
          match c0 with
          | .vUndef => []
          | .vNull => []
          | _ => jsToStringCoerce c0
        let content := c1.take maxChars.toNat
        if content.isEmpty then Option.none else some ⟨r, content⟩)

structure ActionOut where
  type : ActionType
  contactUrl : Option JStr
  payload : JSValue

structure OkBody where
  message : JStr
  reply : JStr
  raw : Option JSValue
  action : Option ActionOut

def contactUrlOrDefault (cfg : BotConfig) : JStr :=
  match cfg.contactUrl with
  | some c => if c.isEmpty then ("/contact").toList else c
  | Option.none => ("/contact").toList

/-- The apology fallback for an empty extracted message (lines 1080-1082). -/
def safeMessageOf (m : JStr) : JStr :=
  let t := jsTrim m
  if t.isEmpty then ("Sorry — I couldn’t generate a response.").toList else t

/-- The post-inference tail of `handleChat` (lines 1067-1104): extract
message and action from the model output, enforce the server-side
action policy, substitute the apology fallback, and build the 200
body. -/
def finalizeChatBody (cfg : BotConfig) (rawText : JStr) (debug : Bool)
    (aiResult : JSValue) : OkBody :=
  let er := extractActionFromModelOutput rawText
  let enabled : Bool :=
    match cfg.actions with
    | some a => a.actionsEnabled
    | Option.none => false
  let allowed : List ActionType :=
    match cfg.actions.bind (fun a => a.allowedActionTypes) with
    | some l =>
      if l.isEmpty then
        (if enabled then [.open_contact, .create_lead, .webhook, .none] else [.none])
      else l
    | Option.none =>
      if enabled then [.open_contact, .create_lead, .webhook, .none] else [.none]
  let finalAction : Option ExtractedAction :=
    match er.action with
    | Option.none => Option.none
    | some a =>
      if ¬ enabled then Option.none
      else if ¬ allowed.contains a.type then some ⟨ActionType.none, .vUndef⟩
      else some a
  let safeMessage : JStr := safeMessageOf er.message
  { message := safeMessage,
    reply := safeMessage,
    raw := if debug then some aiResult else Option.none,
    action := finalAction.map (fun fa =>
      { type := fa.type,
        contactUrl :=
          if fa.type = ActionType.open_contact then some (contactUrlOrDefault cfg)
          else Option.none,
        payload := fa.payload }) }

/-- The observable outcome of one `/api/chat` request: the HTTP
response pieces the claims talk about, plus the state left in the
store and the message list sent to the inference service. -/
structure ChatOutput where
  status : Int
  errCode : Option JStr
  errDetail : Option JStr
  retryAfter : Option JStr
  okBody : Option OkBody
  budget : BudgetState
  rlStore : JStr → JStr → Int → Int
  sent : Option (List ChatMessage)

def chatFail (w : ChatWorld) (st : Int) (e d : JStr) (ra : Option JStr) : ChatOutput :=
  { status := st, errCode := some e, errDetail := some d, retryAfter := ra,
    okBody := Option.none, budget := w.budget, rlStore := w.rlStore,
    sent := Option.none }

/-- The botKey gate of `handleChat` (lines 936-944): true when the
config requires a key and the provided header/body key is missing or
does not match. -/
def botKeyRejected (cfg : BotConfig) (h : ReqHeaders) (body : JSValue) : Bool :=
  let keyTrim := jsTrim (cfg.botKey.getD [])
  let keyRequired : Bool :=
    match cfg.botKey with
    | some k => !k.isEmpty && !(jsTrim k).isEmpty
    | Option.none => false
  let provided : JStr :=
    let hk := jsTrim (getHeader h.xBotKey)
    if !hk.isEmpty then hk
    else
      match asString? (jsGet body (("botKey").toList)) with
      | some s => jsTrim s
      | Option.none => []
  keyRequired && (provided.isEmpty || provided != keyTrim)

/-- The detail string of the 502 AI_ERROR response (line 1031 of the
source: `e?.message || "AI call failed."`). -/
def aiFailDetail (em : Option JStr) : JStr :=
  match em with
  | some m => if m.isEmpty then ("AI call failed.").toList else m
  | Option.none => ("AI call failed.").toList

/-- The tail of `handleChat` after the origin check (lines 949-1104):
rate limiting, daily budget, message trimming, prompt assembly and the
model call. -/
def chatAfterOrigin (w : ChatWorld) (h : ReqHeaders) (cfg : BotConfig)
    (botId : JStr) (messages : List JSValue) (debug : Bool) : ChatOutput :=
  let limit := cfg.rateLimit.limit
  let windowSeconds := cfg.rateLimit.windowSeconds
  let ip := ipFromReq h
  let idx := Int.fdiv w.now (windowSeconds * 1000)
  let current := w.rlStore botId ip idx
  if limit ≤ current then
    chatFail w 429 (("RATE_LIMITED").toList)
      ((("Too many requests. Limit ").toList ++ intToJStr limit
        ++ ("/").toList ++ intToJStr windowSeconds ++ ("s.").toList))
      (some (intToJStr windowSeconds))
  else
    let rlStore2 : JStr → JStr → Int → Int := fun b i j =>
      if b = botId ∧ i = ip ∧ j = idx then current + 1 else w.rlStore b i j
    match checkDailyBudget cfg w.budget with
    | .exceeded detail =>
      { status := 429, errCode := some (("BUDGET_EXCEEDED").toList),
        errDetail := some detail, retryAfter := some (("3600").toList),
        okBody := Option.none, budget := w.budget, rlStore := rlStore2,
        sent := Option.none }
    | pass =>
      let maxTurns := clampNum cfg.maxTurns 4 GLOBAL_MAX_TURNS
      let maxChars := clampNum cfg.maxCharsPerMessage 200
        GLOBAL_MAX_CHARS_PER_MESSAGE
      let trimmed := trimMessages messages maxTurns maxChars
      if trimmed.isEmpty then
        { status := 400, errCode := some (("BAD_REQUEST").toList),
          errDetail := some (("No valid messages.").toList),
          retryAfter := Option.none, okBody := Option.none,
          budget := w.budget, rlStore := rlStore2, sent := Option.none }
      else
        let lastUser : JStr :=
          ((trimmed.reverse.find? (fun m => m.role == Role.user)).map
            (fun m => m.content)).getD []
        let knowledge : JStr :=
          match cfg.knowledge with
          | some k =>
            if (jsTrim k).isEmpty then []
            else ("\nWebsite notes:\n").toList ++ jsTrim k ++ ("\n").toList
          | Option.none => []
        let sysRaw := buildSystemPrompt cfg ++ knowledge ++ w.ragBlock lastUser
        let input := assembleModelInput sysRaw trimmed
        let estimatedPromptTokens :=
          (input.map (fun m => estimateTokensFromText m.content)).sum
        match w.aiOutcome with
        | .failure em =>
          { status := 502, errCode := some (("AI_ERROR").toList),
            errDetail := some (aiFailDetail em),
            retryAfter := Option.none, okBody := Option.none,
            budget := w.budget, rlStore := rlStore2, sent := some input }
        | .success aiResult =>
          let rawText := extractRawText aiResult
          let usage := extractUsage aiResult
          let reported := totalTokensFromModel usage
          let completionTokensEstimate := estimateTokensFromText rawText
          let totalTokensEstimate :=
            reported.getD (estimatedPromptTokens + completionTokensEstimate)
          let budget2 :=
            match pass with
            | .passActive => incrementDailyBudget w.budget 1 totalTokensEstimate
            | _ => w.budget
          { status := 200, errCode := Option.none, errDetail := Option.none,
            retryAfter := Option.none,
            okBody := some (finalizeChatBody cfg rawText debug aiResult),
            budget := budget2, rlStore := rlStore2, sent := some input }

/-- Embedding of `handleChat` (lines 904-1112). -/
def handleChat (w : ChatWorld) (h : ReqHeaders) (body : JSValue) : ChatOutput :=
  if ¬ (jsTruthy body ∧ jsIsObjectType body) then
    chatFail w 400 (("BAD_REQUEST").toList) (("Expected JSON.").toList) Option.none
  else
    let botId : JStr :=
      match asString? (jsGet body (("botId").toList)) with
      | some s => jsTrim s
      | Option.none => []
    let messages : List JSValue :=
      match jsGet body (("messages").toList) with
      | .vArr xs => xs
      | _ => []
    let debug := jsTruthy (jsGet body (("debug").toList))
    if botId.isEmpty ∨ messages.isEmpty then
      chatFail w 400 (("BAD_REQUEST").toList)
        (("Expected \x7b botId, messages[] \x7d.").toList) Option.none
    else
      match w.cfg with
      | Option.none =>
        chatFail w 404 (("NOT_FOUND").toList) (("Unknown botId.").toList) Option.none
      | some cfg =>
        if botKeyRejected cfg h body then
          chatFail w 401 (("UNAUTHORIZED").toList)
            (("Missing/invalid botKey.").toList) Option.none
        else
          let origin := getRequestOrigin h
          if ¬ origin.isEmpty ∧ ¬ isOriginAllowed origin cfg.allowedOrigins then
            chatFail w 403 (("FORBIDDEN_ORIGIN").toList)
              (("Origin not allowed.").toList) Option.none
          else
            chatAfterOrigin w h cfg botId messages debug

/-! ### Concrete fixtures used by the counterexamples and witnesses -/

/-- A stored record as the normalizer would produce it, with a
rate limit of 3 requests per 60 seconds and a request-per-day budget. -/
def exCfg : BotConfig :=
  { botId := ("acme").toList, siteName := some (("Acme").toList),
    contactUrl := some (("/contact").toList),
    tone := Option.none, model := Option.none, maxTokens := 512,
    allowedOrigins := [], botKey := Option.none, leadMode := .balanced,
    qualifyingQuestions := Option.none, knowledge := Option.none,
    knowledgeUrls := [], ragEnabled := false, ragMode := Option.none,
    ragMaxUrlsPerRequest := 2, ragTopKChunks := 4, ragChunkChars := 1200,
    ragCacheTtlSeconds := 86400, ragEmbeddingModel := Option.none,
    maxTurns := 20, maxCharsPerMessage := 4000, rateLimit := ⟨3, 60⟩,
    dailyBudget := some ⟨300, 0⟩, actions := Option.none, schemaVersion := 2 }

def exBody : JSValue :=
  .vObj [(("botId").toList, .vStr (("acme").toList)),
         (("messages").toList, .vArr
           [.vObj [(("role").toList, .vStr (("user").toList)),
                   (("content").toList, .vStr (("hello").toList))]])]

def exHeaders : ReqHeaders :=
  ⟨Option.none, Option.none, Option.none, Option.none, Option.none,
   Option.none, Option.none, Option.none⟩

def exAiResult : JSValue :=
  .vObj [(("response").toList, .vStr (("Hello there").toList))]

def exWorld : ChatWorld :=
  { cfg := some exCfg, rlStore := fun _ _ _ => 0, budget := ⟨0, 0⟩, now := 0,
    ragBlock := fun _ => [],
    aiOutcome := .success exAiResult }

def exWorldFail : ChatWorld :=
  { exWorld with aiOutcome := .failure (some (("boom upstream").toList)) }

/-! ### Claim C1: origin checking when the Origin header is absent -/

/-- C1 counterexample: a request with no `Origin` header but a `Host`
header, against a bot with a non-empty `allowedOrigins`, is rejected
with 403 FORBIDDEN_ORIGIN — `getRequestOrigin` synthesizes an origin
from the host headers, so origin checking is not skipped. -/
theorem chat_no_origin_header_still_forbidden :
    (handleChat
      { exWorld with cfg := some { exCfg with
          allowedOrigins := [("https://good.com").toList] } }
      { exHeaders with host := some (("evil.com").toList) }
      exBody).status = 403 ∧
    (handleChat
      { exWorld with cfg := some { exCfg with
          allowedOrigins := [("https://good.com").toList] } }
      { exHeaders with host := some (("evil.com").toList) }
      exBody).errCode = some (("FORBIDDEN_ORIGIN").toList) ∧
    ({ exHeaders with host := some (("evil.com").toList) } : ReqHeaders).origin
      = Option.none := by
  refine ⟨by decide, by decide, rfl⟩

/-- The stages after the origin check can never answer FORBIDDEN_ORIGIN:
the 403 is issued before `chatAfterOrigin` runs. -/
theorem chatAfterOrigin_errCode_ne_forbidden (w : ChatWorld) (h : ReqHeaders)
    (cfg : BotConfig) (botId : JStr) (messages : List JSValue) (debug : Bool) :
    (chatAfterOrigin w h cfg botId messages debug).errCode ≠
      some (("FORBIDDEN_ORIGIN").toList) := by
  unfold chatAfterOrigin chatFail
  dsimp only
  split
  all_goals try split
  all_goals try split
  all_goals try split
  all_goals try split
  all_goals try split
  all_goals
    first
    | exact fun hcon => absurd (Option.some.inj hcon) (by decide)
    | exact fun hcon => Option.noConfusion hcon

/-- C1 amended: origin checking is skipped only when `getRequestOrigin`
yields the empty string — the `Origin` header is absent and no
host-derived fallback (`x-forwarded-host`/`host`) is present. Such a
request is never rejected with FORBIDDEN_ORIGIN, for every bot
configuration. -/
theorem chat_empty_origin_never_forbidden (w : ChatWorld) (h : ReqHeaders)
    (body : JSValue) (horigin : getRequestOrigin h = []) :
    (handleChat w h body).errCode ≠ some (("FORBIDDEN_ORIGIN").toList) := by
  unfold handleChat chatFail
  dsimp only
  split
  all_goals try split
  all_goals try split
  all_goals try split
  all_goals try split
  all_goals try split
  all_goals try split
  all_goals
    first
    | exact fun hcon => absurd (Option.some.inj hcon) (by decide)
    | (rename_i hcond
       exact (hcond.1 (by simp [horigin])).elim)
    | exact chatAfterOrigin_errCode_ne_forbidden _ _ _ _ _ _

theorem chat_empty_origin_never_forbidden_witness :
    getRequestOrigin exHeaders = [] ∧
    (handleChat exWorld exHeaders exBody).errCode ≠
      some (("FORBIDDEN_ORIGIN").toList) :=
  ⟨rfl, chat_empty_origin_never_forbidden exWorld exHeaders exBody rfl⟩

/-! ### Claim C7: what the 502 AI_ERROR response exposes -/

/-- C7 counterexample: when the inference call throws an error whose
message is "boom upstream" and the request set no debug flag, the 502
response's detail field is exactly "boom upstream" — the raw upstream
error message, not a safe "try again" message. -/
theorem chat_ai_error_leaks_upstream_message :
    (handleChat exWorldFail exHeaders exBody).status = 502 ∧
    (handleChat exWorldFail exHeaders exBody).errDetail =
      some (("boom upstream").toList) ∧
    jsTruthy (jsGet exBody (("debug").toList)) = false := by
  refine ⟨by decide, by decide, by decide⟩

/-- C7 amended: on an inference failure the response is a 502 whose
detail is always `aiFailDetail` of the thrown error — the error's own
message when nonempty, else "AI call failed." — independently of any
debug flag. -/
theorem chat_ai_error_detail_is_upstream_message (w : ChatWorld)
    (h : ReqHeaders) (body : JSValue) (em : Option JStr)
    (hao : w.aiOutcome = .failure em) :
    (handleChat w h body).status = 502 →
    (handleChat w h body).errCode = some (("AI_ERROR").toList) ∧
    (handleChat w h body).errDetail = some (aiFailDetail em) := by
  unfold handleChat chatAfterOrigin chatFail
  simp only [hao]
  split
  all_goals try split
  all_goals try split
  all_goals try split
  all_goals try split
  all_goals try split
  all_goals try split
  all_goals try split
  all_goals try split
  all_goals try split
  all_goals
    first
    | exact fun _ => ⟨rfl, rfl⟩
    | exact fun hcon => absurd hcon (by simp)

theorem chat_ai_error_detail_is_upstream_message_witness :
    exWorldFail.aiOutcome = .failure (some (("boom upstream").toList)) ∧
    (handleChat exWorldFail exHeaders exBody).status = 502 ∧
    ((handleChat exWorldFail exHeaders exBody).errCode =
        some (("AI_ERROR").toList) ∧
      (handleChat exWorldFail exHeaders exBody).errDetail =
        some (aiFailDetail (some (("boom upstream").toList)))) :=
  ⟨rfl, by decide,
   chat_ai_error_detail_is_upstream_message exWorldFail exHeaders exBody
     (some (("boom upstream").toList)) rfl (by decide)⟩

/-! ### Claim C5: the daily budget is charged only after a successful call -/

set_option maxHeartbeats 1600000 in
/-- C5: the stored daily budget is unchanged on every non-200 outcome
(early rejection or AI failure); on a 200 with active budget tracking it
is incremented by one request and by the reported total tokens when the
model reports them, otherwise by the estimate over the sent prompt plus
the completion text. -/
theorem chat_budget_only_after_success (w : ChatWorld) (h : ReqHeaders)
    (body : JSValue) :
    ((handleChat w h body).status ≠ 200 →
      (handleChat w h body).budget = w.budget) ∧
    (∀ cfg r, w.cfg = some cfg → w.aiOutcome = .success r →
      checkDailyBudget cfg w.budget = .passActive →
      (handleChat w h body).status = 200 →
      ∃ input, (handleChat w h body).sent = some input ∧
        (handleChat w h body).budget =
          incrementDailyBudget w.budget 1
            ((totalTokensFromModel (extractUsage r)).getD
              ((input.map (fun m => estimateTokensFromText m.content)).sum
                + estimateTokensFromText (extractRawText r)))) := by
  constructor
  · unfold handleChat chatAfterOrigin chatFail
    dsimp only
    split
    all_goals try split
    all_goals try split
    all_goals try split
    all_goals try split
    all_goals try split
    all_goals try split
    all_goals try split
    all_goals try split
    all_goals
      first
      | exact fun _ => rfl
      | exact fun hcon => absurd rfl hcon
  · intro cfg r hcfg hao hbc
    unfold handleChat chatAfterOrigin chatFail
    simp only [hcfg, hao, hbc]
    split
    all_goals try split
    all_goals try split
    all_goals try split
    all_goals try split
    all_goals try split
    all_goals try split
    all_goals try split
    all_goals try split
    all_goals
      first
      | exact fun _ => ⟨_, rfl, rfl⟩
      | exact fun hcon => absurd hcon (by simp)

theorem chat_budget_only_after_success_witness :
    ((handleChat exWorldFail exHeaders exBody).status ≠ 200 ∧
      (handleChat exWorldFail exHeaders exBody).budget = exWorldFail.budget) ∧
    (exWorld.cfg = some exCfg ∧ exWorld.aiOutcome = .success exAiResult ∧
      checkDailyBudget exCfg exWorld.budget = .passActive ∧
      (handleChat exWorld exHeaders exBody).status = 200 ∧
      ∃ input, (handleChat exWorld exHeaders exBody).sent = some input ∧
        (handleChat exWorld exHeaders exBody).budget =
          incrementDailyBudget exWorld.budget 1
            ((totalTokensFromModel (extractUsage exAiResult)).getD
              ((input.map (fun m => estimateTokensFromText m.content)).sum
                + estimateTokensFromText (extractRawText exAiResult)))) :=
  ⟨⟨by decide,
    (chat_budget_only_after_success exWorldFail exHeaders exBody).1 (by decide)⟩,
   rfl, rfl, by decide, by decide,
   (chat_budget_only_after_success exWorld exHeaders exBody).2 exCfg exAiResult
     rfl rfl (by decide) (by decide)⟩

/-! ### Claim C6: rate limit 3/60s scenario -/

/-- Carry the updated rate-limit store of one chat call into the next
world state (the store write of lines 963-966). -/
def chatStep (w : ChatWorld) : ChatOutput × ChatWorld :=
  let out := handleChat w exHeaders exBody
  (out, { w with rlStore := out.rlStore, budget := out.budget })

/-- C6: with `limit=3, windowSeconds=60`, three sequential requests from
the same (bot, IP) in one window succeed, the 4th is rejected with 429
RATE_LIMITED and Retry-After "60", and a request in the next window
(60s = 60000ms later) is admitted again. -/
theorem chat_rate_limit_three_then_reject :
    exCfg.rateLimit = ⟨3, 60⟩ ∧
    ((chatStep exWorld).1.status = 200 ∧
      (chatStep (chatStep exWorld).2).1.status = 200 ∧
      (chatStep (chatStep (chatStep exWorld).2).2).1.status = 200) ∧
    (chatStep (chatStep (chatStep (chatStep exWorld).2).2).2).1.status = 429 ∧
    (chatStep (chatStep (chatStep (chatStep exWorld).2).2).2).1.errCode =
      some (("RATE_LIMITED").toList) ∧
    (chatStep (chatStep (chatStep (chatStep exWorld).2).2).2).1.retryAfter =
      some (("60").toList) ∧
    (handleChat
      { (chatStep (chatStep (chatStep exWorld).2).2).2 with now := 60000 }
      exHeaders exBody).status = 200 := by
  refine ⟨rfl, ⟨by decide, by decide, by decide⟩, by decide, by decide,
    by decide, by decide⟩

/-! ### Claim C3: server-side action policy -/

/-- C3: if the bot's action policy is disabled (`actions` absent or
`actionsEnabled` false), the 200 body carries no action, only the
extracted message; if enabled with a non-empty `allowedActionTypes`
list, a parsed action whose type is outside the list is downgraded to
type `none`. -/
theorem finalizeChatBody_action_policy (cfg : BotConfig) (rawText : JStr)
    (debug : Bool) (r : JSValue) :
    ((∀ a, cfg.actions = some a → a.actionsEnabled = false) →
      (finalizeChatBody cfg rawText debug r).action = Option.none ∧
      (finalizeChatBody cfg rawText debug r).message =
        safeMessageOf (extractActionFromModelOutput rawText).message) ∧
    (∀ ac ea l, cfg.actions = some ac → ac.actionsEnabled = true →
      (extractActionFromModelOutput rawText).action = some ea →
      ac.allowedActionTypes = some l → l ≠ [] →
      l.contains ea.type = false →
      (finalizeChatBody cfg rawText debug r).action =
        some { type := ActionType.none, contactUrl := Option.none,
               payload := JSValue.vUndef }) := by
  constructor
  · intro hdis
    refine ⟨?_, rfl⟩
    unfold finalizeChatBody
    dsimp only
    cases hea : (extractActionFromModelOutput rawText).action with
    | none => simp [hea]
    | some a =>
      cases hca : cfg.actions with
      | none => simp [hea, hca]
      | some ac => simp [hea, hca, hdis ac hca]
  · intro ac ea l hca hen hea hat hlne hcontains
    unfold finalizeChatBody
    dsimp only
    have hle : l.isEmpty = false := by
      cases l with
      | nil => exact absurd rfl hlne
      | cons x xs => rfl
    have hmem : ¬ ea.type ∈ l := by simpa using hcontains
    simp [hca, hen, hea, hat, hle, hmem]

def exActionText : JStr :=
  ("\x7b\"message\":\"hi\",\"action\":\x7b\"type\":\"create_lead\",\"payload\":\x7b\x7d\x7d\x7d").toList

def exActionCfg : BotActionConfig :=
  { actionsEnabled := true, webhookUrl := Option.none,
    webhookAuthHeader := Option.none, webhookSecret := Option.none,
    allowedActionTypes := some [ActionType.open_contact] }

def exCfgActions : BotConfig :=
  { exCfg with actions := some exActionCfg }

theorem finalizeChatBody_action_policy_witness :
    ((finalizeChatBody exCfg exActionText false exAiResult).action =
        Option.none ∧
      (finalizeChatBody exCfg exActionText false exAiResult).message =
        safeMessageOf (extractActionFromModelOutput exActionText).message) ∧
    ((extractActionFromModelOutput exActionText).action =
        some { type := ActionType.create_lead, payload := .vObj [] } ∧
      ([ActionType.open_contact].contains ActionType.create_lead = false) ∧
      (finalizeChatBody exCfgActions exActionText false exAiResult).action =
        some { type := ActionType.none, contactUrl := Option.none,
               payload := JSValue.vUndef }) :=
  ⟨(finalizeChatBody_action_policy exCfg exActionText false exAiResult).1
     (fun a h => Option.noConfusion h),
   rfl, by decide,
   (finalizeChatBody_action_policy exCfgActions exActionText false
       exAiResult).2
     exActionCfg { type := ActionType.create_lead, payload := .vObj [] }
     [ActionType.open_contact] rfl rfl rfl rfl (by decide) (by decide)⟩

/-! ### Claim C10: reply mirrors message on 200 -/

theorem finalizeChatBody_reply_eq (cfg : BotConfig) (rawText : JStr)
    (debug : Bool) (r : JSValue) :
    (finalizeChatBody cfg rawText debug r).reply =
      (finalizeChatBody cfg rawText debug r).message ∧
    (finalizeChatBody cfg rawText debug r).message ≠ [] := by
  unfold finalizeChatBody
  dsimp only
  refine ⟨rfl, ?_⟩
  unfold safeMessageOf
  dsimp only
  split
  · decide
  · rename_i ht
    simpa [List.isEmpty_iff] using ht

set_option maxHeartbeats 1600000 in
theorem chatAfterOrigin_ok_reply (w : ChatWorld) (h : ReqHeaders)
    (cfg : BotConfig) (botId : JStr) (messages : List JSValue)
    (debug : Bool) :
    (chatAfterOrigin w h cfg botId messages debug).status = 200 →
    ∃ b, (chatAfterOrigin w h cfg botId messages debug).okBody = some b ∧
      b.reply = b.message ∧ b.message ≠ [] := by
  unfold chatAfterOrigin chatFail
  dsimp only
  split
  all_goals try split
  all_goals try split
  all_goals try split
  all_goals try split
  all_goals try split
  all_goals
    first
    | exact fun _ => ⟨_, rfl, finalizeChatBody_reply_eq _ _ _ _⟩
    | exact fun hcon => absurd hcon (by simp)

set_option maxHeartbeats 1600000 in
/-- C10: every 200 response body has `reply` present and equal to
`message`, and both non-empty. -/
theorem chat_ok_reply_alias (w : ChatWorld) (h : ReqHeaders)
    (body : JSValue) :
    (handleChat w h body).status = 200 →
    ∃ b, (handleChat w h body).okBody = some b ∧
      b.reply = b.message ∧ b.message ≠ [] := by
  unfold handleChat chatFail
  dsimp only
  split
  all_goals try split
  all_goals try split
  all_goals try split
  all_goals try split
  all_goals try split
  all_goals try split
  all_goals
    first
    | exact chatAfterOrigin_ok_reply _ _ _ _ _ _
    | exact fun hcon => absurd hcon (by simp)

theorem chat_ok_reply_alias_witness :
    (handleChat exWorld exHeaders exBody).status = 200 ∧
    ∃ b, (handleChat exWorld exHeaders exBody).okBody = some b ∧
      b.reply = b.message ∧ b.message ≠ [] :=
  ⟨by decide, chat_ok_reply_alias exWorld exHeaders exBody (by decide)⟩

/-! ### Claim C4: write-time clamping invariant -/

/-- The documented global range of every numeric field and the cap of
every list field of a stored record. -/
def ConfigInv (c : BotConfig) : Prop :=
  (64 ≤ c.maxTokens ∧ c.maxTokens ≤ GLOBAL_MAX_TOKENS) ∧
  (0 ≤ c.ragMaxUrlsPerRequest ∧ c.ragMaxUrlsPerRequest ≤ GLOBAL_RAG_MAX_URLS) ∧
  (1 ≤ c.ragTopKChunks ∧ c.ragTopKChunks ≤ GLOBAL_RAG_MAX_TOPK) ∧
  (300 ≤ c.ragChunkChars ∧ c.ragChunkChars ≤ GLOBAL_RAG_MAX_CHUNK_CHARS) ∧
  (60 ≤ c.ragCacheTtlSeconds ∧ c.ragCacheTtlSeconds ≤ 7 * 86400) ∧
  (4 ≤ c.maxTurns ∧ c.maxTurns ≤ GLOBAL_MAX_TURNS) ∧
  (200 ≤ c.maxCharsPerMessage ∧ c.maxCharsPerMessage ≤ GLOBAL_MAX_CHARS_PER_MESSAGE) ∧
  (1 ≤ c.rateLimit.limit ∧ c.rateLimit.limit ≤ 120) ∧
  (10 ≤ c.rateLimit.windowSeconds ∧ c.rateLimit.windowSeconds ≤ 3600) ∧
  (∀ b, c.dailyBudget = some b →
    (0 ≤ b.maxRequestsPerDay ∧ b.maxRequestsPerDay ≤ 100000) ∧
    (0 ≤ b.maxTokensPerDay ∧ b.maxTokensPerDay ≤ 50000000)) ∧
  c.allowedOrigins.length ≤ 25 ∧
  c.knowledgeUrls.length ≤ 50 ∧
  (∀ q, c.qualifyingQuestions = some q → q.length ≤ 6)

theorem clampInt_mem (v : JSValue) {defv lo hi : Int} (hlh : lo ≤ hi)
    (hd1 : lo ≤ defv) (hd2 : defv ≤ hi) :
    lo ≤ clampInt v defv lo hi ∧ clampInt v defv lo hi ≤ hi := by
  unfold clampInt
  split
  · exact ⟨le_max_left .., max_le hlh (min_le_left ..)⟩
  · split
    · exact ⟨le_max_left .., max_le hlh (min_le_left ..)⟩
    · exact ⟨hd1, hd2⟩
  · exact ⟨hd1, hd2⟩

theorem normalizeDailyBudget_inv (v : JSValue) (ex : Option DailyBudgetConfig)
    (hex : ∀ e, ex = some e →
      (0 ≤ e.maxRequestsPerDay ∧ e.maxRequestsPerDay ≤ 100000) ∧
      (0 ≤ e.maxTokensPerDay ∧ e.maxTokensPerDay ≤ 50000000)) :
    ∀ b, normalizeDailyBudget v ex = some b →
      (0 ≤ b.maxRequestsPerDay ∧ b.maxRequestsPerDay ≤ 100000) ∧
      (0 ≤ b.maxTokensPerDay ∧ b.maxTokensPerDay ≤ 50000000) := by
  intro b hb
  unfold normalizeDailyBudget at hb
  split at hb
  · exact absurd hb (by simp)
  · obtain rfl : _ = b := by injection hb
    have hdef1 : (0:Int) ≤ (ex.map (fun e => e.maxRequestsPerDay)).getD 300 ∧
        (ex.map (fun e => e.maxRequestsPerDay)).getD 300 ≤ 100000 := by
      cases hex2 : ex with
      | none => simp
      | some e =>
        have := hex e hex2
        simpa using this.1
    have hdef2 : (0:Int) ≤ (ex.map (fun e => e.maxTokensPerDay)).getD 0 ∧
        (ex.map (fun e => e.maxTokensPerDay)).getD 0 ≤ 50000000 := by
      cases hex2 : ex with
      | none => simp
      | some e =>
        have := hex e hex2
        simpa using this.2
    exact ⟨clampInt_mem _ (by omega) hdef1.1 hdef1.2,
      clampInt_mem _ (by omega) hdef2.1 hdef2.2⟩

/-- C4: for every accepted `BotConfig` write (arbitrary JSON body with a
nonempty `botId`, prior stored state itself normalized), every numeric
field of the stored record is within its documented global range and
every list field is within its cap. -/
theorem normalizeConfig_inv (incoming : JSValue) (existing : Option BotConfig)
    (cfg : BotConfig)
    (hex : ∀ e, existing = some e → ConfigInv e)
    (h : normalizeConfig incoming existing = some cfg) : ConfigInv cfg := by
  unfold normalizeConfig at h
  dsimp only at h
  by_cases hbot : (incomingBotId incoming).isEmpty
  · rw [if_pos hbot] at h
    exact absurd h (by simp)
  rw [if_neg hbot] at h
  obtain rfl : _ = cfg := by injection h
  refine ⟨?_, ?_, ?_, ?_, ?_, ?_, ?_, ?_, ?_, ?_, ?_, ?_, ?_⟩
  · exact clampInt_mem _ (by norm_num [GLOBAL_MAX_TOKENS])
      (by
        cases hem : existing with
        | none => simp
        | some e => simpa using (hex e hem).1.1)
      (by
        cases hem : existing with
        | none => norm_num [GLOBAL_MAX_TOKENS]
        | some e => simpa using (hex e hem).1.2)
  · exact clampInt_mem _ (by norm_num [GLOBAL_RAG_MAX_URLS])
      (by
        cases hem : existing with
        | none => simp
        | some e => simpa using (hex e hem).2.1.1)
      (by
        cases hem : existing with
        | none => norm_num [GLOBAL_RAG_MAX_URLS]
        | some e => simpa using (hex e hem).2.1.2)
  · exact clampInt_mem _ (by norm_num [GLOBAL_RAG_MAX_TOPK])
      (by
        cases hem : existing with
        | none => simp
        | some e => simpa using (hex e hem).2.2.1.1)
      (by
        cases hem : existing with
        | none => norm_num [GLOBAL_RAG_MAX_TOPK]
        | some e => simpa using (hex e hem).2.2.1.2)
  · exact clampInt_mem _ (by norm_num [GLOBAL_RAG_MAX_CHUNK_CHARS])
      (by
        cases hem : existing with
        | none => simp
        | some e => simpa using (hex e hem).2.2.2.1.1)
      (by
        cases hem : existing with
        | none => norm_num [GLOBAL_RAG_MAX_CHUNK_CHARS]
        | some e => simpa using (hex e hem).2.2.2.1.2)
  · exact clampInt_mem _ (by norm_num)
      (by
        cases hem : existing with
        | none => simp
        | some e => simpa using (hex e hem).2.2.2.2.1.1)
      (by
        cases hem : existing with
        | none => norm_num
        | some e => simpa using (hex e hem).2.2.2.2.1.2)
  · exact clampInt_mem _ (by norm_num [GLOBAL_MAX_TURNS])
      (by
        cases hem : existing with
        | none => simp
        | some e => simpa using (hex e hem).2.2.2.2.2.1.1)
      (by
        cases hem : existing with
        | none => norm_num [GLOBAL_MAX_TURNS]
        | some e => simpa using (hex e hem).2.2.2.2.2.1.2)
  · exact clampInt_mem _ (by norm_num [GLOBAL_MAX_CHARS_PER_MESSAGE])
      (by
        cases hem : existing with
        | none => simp
        | some e => simpa using (hex e hem).2.2.2.2.2.2.1.1)
      (by
        cases hem : existing with
        | none => norm_num [GLOBAL_MAX_CHARS_PER_MESSAGE]
        | some e => simpa using (hex e hem).2.2.2.2.2.2.1.2)
  · exact clampInt_mem _ (by norm_num)
      (by
        cases hem : existing with
        | none => simp
        | some e => simpa using (hex e hem).2.2.2.2.2.2.2.1.1)
      (by
        cases hem : existing with
        | none => norm_num
        | some e => simpa using (hex e hem).2.2.2.2.2.2.2.1.2)
  · exact clampInt_mem _ (by norm_num)
      (by
        cases hem : existing with
        | none => simp
        | some e => simpa using (hex e hem).2.2.2.2.2.2.2.2.1.1)
      (by
        cases hem : existing with
        | none => norm_num
        | some e => simpa using (hex e hem).2.2.2.2.2.2.2.2.1.2)
  · exact normalizeDailyBudget_inv _ _ (by
      intro e he
      cases hem : existing with
      | none => rw [hem] at he; simp at he
      | some e2 =>
        rw [hem] at he
        simp at he
        exact (hex e2 hem).2.2.2.2.2.2.2.2.2.1 e (by rw [← he]))
  · exact sanitizeOrigins_length _
  · exact sanitizeUrlList_length _
  · intro q hq
    unfold pickQualifying at hq
    split at hq
    · obtain rfl : _ = q := by injection hq
      exact List.length_take_le ..
    · cases hem : existing with
      | none => rw [hem] at hq; simp at hq
      | some e2 =>
        rw [hem] at hq
        simp at hq
        exact (hex e2 hem).2.2.2.2.2.2.2.2.2.2.2.2 q hq

/-! ### Witness instances for the universally quantified claims -/

def exSys : JStr := ("sys").toList

def exTrimmed : List ChatMessage := [{ role := .user, content := ("hello").toList }]

theorem assembleModelInput_spec_witness :
    totalChars (assembleModelInput exSys exTrimmed) ≤
      GLOBAL_MAX_TOTAL_INPUT_CHARS ∧
    totalChars (systemMsgOf exSys :: exTrimmed) ≤
      GLOBAL_MAX_TOTAL_INPUT_CHARS ∧
    assembleModelInput exSys exTrimmed = systemMsgOf exSys :: exTrimmed :=
  ⟨(assembleModelInput_spec exSys exTrimmed).1, by decide,
   (assembleModelInput_spec exSys exTrimmed).2.2 (by decide)⟩

theorem selectRelevantUrls_spec_witness :
    (([("a").toList, ("b").toList] : List JStr) ≠ []) ∧ ((0 : Int) < 5) ∧
    ((selectRelevantUrls (("q").toList) [("a").toList, ("b").toList] 5).length =
        min (5 : Int).toNat ([("a").toList, ("b").toList] : List JStr).length ∧
      List.Pairwise (fun a b => b.score ≤ a.score)
        (sortDesc (scoredOf (("q").toList) [("a").toList, ("b").toList])) ∧
      (∀ s : Int,
        (sortDesc (scoredOf (("q").toList) [("a").toList, ("b").toList])).filter
            (fun z => z.score == s) =
          (scoredOf (("q").toList) [("a").toList, ("b").toList]).filter
            (fun z => z.score == s))) :=
  ⟨by decide, by decide,
   selectRelevantUrls_spec (("q").toList) [("a").toList, ("b").toList] 5
     (by decide) (by decide)⟩

def exIncoming : JSValue :=
  .vObj [(("botId").toList, .vStr (("acme").toList)),
         (("maxTokens").toList, .vNum (-5)),
         (("maxTurns").toList, .vStr (("many").toList)),
         (("allowedOrigins").toList, .vArr [.vStr (("https://a.com").toList)])]

theorem normalizeConfig_inv_witness :
    normalizeConfig exIncoming Option.none =
      some ((normalizeConfig exIncoming Option.none).getD exCfg) ∧
    ConfigInv ((normalizeConfig exIncoming Option.none).getD exCfg) :=
  ⟨by rfl,
   normalizeConfig_inv exIncoming Option.none
     ((normalizeConfig exIncoming Option.none).getD exCfg)
     (fun e he => Option.noConfusion he) (by rfl)⟩

theorem normalizeConfig_idem_witness :
    normalizeConfig exIncoming Option.none =
      some ((normalizeConfig exIncoming Option.none).getD exCfg) ∧
    normalizeConfig exIncoming
        (some ((normalizeConfig exIncoming Option.none).getD exCfg)) =
      some ((normalizeConfig exIncoming Option.none).getD exCfg) :=
  ⟨by rfl,
   normalizeConfig_idem exIncoming Option.none
     ((normalizeConfig exIncoming Option.none).getD exCfg) (by rfl)⟩

end ChatPlatform
